import Mathlib

/-!
Shallow embedding of the `gnstats` statistics package (`ent/stats/stats.go`).

Go's `float32` percentages are modelled by exact rationals (`ℚ`); Go maps
(`map[Taxon]int`) are modelled by association lists kept in first-insertion
order, which is one possible enumeration order of a Go map.
-/

namespace GNStats

/-- Rank is an integer-backed ordered enumeration of taxonomic ranks. -/
abbrev Rank : Type := Nat

/-- Modelled from the spec: the file `rank.go` (the `Rank` constants, the
`NewRank` classifier, `Index` and `ranksData`) is not part of `src/`; the
ordering follows spec §3 ("Empire > Kingdom > Phylum > ... > Genus > ...",
with the sentinels `Empty` and `Unknown` below every comparable rank) and the
assertions of `rank_test.go` (`Empire > Kingdom`, `Class > SubClass`).
Larger value = more general rank; "genus or more specific" is `r ≤ Genus`. -/
def Empty : Rank := 0

/-- Modelled from the spec: sentinel for an unrecognised rank label. -/
def Unknown : Rank := 1

/-- Modelled from the spec: species level (below genus). -/
def Species : Rank := 2

/-- Modelled from the spec: subgenus level. -/
def SubGenus : Rank := 3

/-- Modelled from the spec: genus level, the filtering cut-off. -/
def Genus : Rank := 4

/-- Modelled from the spec: tribe level. -/
def Tribe : Rank := 5

/-- Modelled from the spec: subfamily level. -/
def SubFamily : Rank := 6

/-- Modelled from the spec: family level. -/
def Family : Rank := 7

/-- Modelled from the spec: superfamily level. -/
def SuperFamily : Rank := 8

/-- Modelled from the spec: suborder level. -/
def SubOrder : Rank := 9

/-- Modelled from the spec: order level. -/
def Order : Rank := 10

/-- Modelled from the spec: infraclass level. -/
def InfraClass : Rank := 11

/-- Modelled from the spec: subclass level. -/
def SubClass : Rank := 12

/-- Modelled from the spec: class level. -/
def Class : Rank := 13

/-- Modelled from the spec: phylum level. -/
def Phylum : Rank := 14

/-- Modelled from the spec: kingdom level. -/
def Kingdom : Rank := 15

/-- Modelled from the spec: empire, the most general rank. -/
def Empire : Rank := 16

/-- Modelled from the spec: `Index` maps a rank to its position in the
`ranksData` bucket slice; buckets are stored from most general (position 0)
to most specific, so that the reverse iteration of `calcStats` visits ranks
from most specific to most general. -/
def Rank.Index (r : Rank) : Nat := 16 - r

/-- Modelled from the spec (§4.1): `NewRank` maps a case-sensitive rank label
to its canonical Rank via a fixed lookup table; every unlisted label (and the
explicit "unranked" label) yields `Unknown`. -/
def NewRank (s : String) : Rank :=
  if s = "empire" then Empire
  else if s = "kingdom" then Kingdom
  else if s = "phylum" then Phylum
  else if s = "class" then Class
  else if s = "subclass" then SubClass
  else if s = "infraclass" then InfraClass
  else if s = "order" then Order
  else if s = "suborder" then SubOrder
  else if s = "superfamily" then SuperFamily
  else if s = "family" then Family
  else if s = "subfamily" then SubFamily
  else if s = "tribe" then Tribe
  else if s = "genus" then Genus
  else if s = "subgenus" then SubGenus
  else if s = "species" then Species
  else Unknown

/-- Taxon mirrors the Go struct `Taxon`: a CoL identifier, a display name,
the original rank label, and the canonical rank (Go embeds `Rank`). -/
structure Taxon where
  ID : String
  Name : String
  RankStr : String
  Rank : Rank
deriving DecidableEq, Repr

/-- Go zero value of `Taxon`: empty strings and rank 0 (`Empty`). -/
def zeroTaxon : Taxon := { ID := "", Name := "", RankStr := "", Rank := Empty }

/-- TaxonDist mirrors the Go struct `TaxonDist`; `Percentage` (Go `float32`)
is modelled as a rational. -/
structure TaxonDist where
  NamesNum : Nat
  Name : String
  Percentage : ℚ
deriving DecidableEq, Repr

/-- Stats mirrors the Go struct `Stats`; percentages (Go `float32`) are
modelled as rationals. -/
structure Stats where
  NamesNum : Nat := 0
  Kingdoms : List TaxonDist := []
  Kingdom : Taxon := zeroTaxon
  KingdomPercentage : ℚ := 0
  Phylum : Taxon := zeroTaxon
  PhylumPercentage : ℚ := 0
  Class : Taxon := zeroTaxon
  ClassPercentage : ℚ := 0
  Order : Taxon := zeroTaxon
  OrderPercentage : ℚ := 0
  Family : Taxon := zeroTaxon
  FamilyPercentage : ℚ := 0
  Genus : Taxon := zeroTaxon
  GenusPercentage : ℚ := 0
  MainTaxon : Taxon := zeroTaxon
  MainTaxonPercentage : ℚ := 0
deriving DecidableEq, Repr

/-- Go zero value `Stats{}`. -/
def emptyStats : Stats := {}

/-- Hierarchy models the Go interface with its single method
`Taxons() []Taxon`. -/
structure Hierarchy where
  Taxons : List Taxon
deriving DecidableEq, Repr

/-- rankData mirrors the Go per-rank aggregation bucket: the bucket's rank,
the occurrence map `data map[Taxon]int` (modelled as an association list in
first-insertion order) and the running `total`. -/
structure rankData where
  rank : Rank
  data : List (Taxon × Nat)
  total : Nat
deriving DecidableEq, Repr

/-- Modelled from the spec (§4.3): `ranksData` returns one empty bucket per
Rank value, ordered from most general (`Empire`, position 0 = `Empire.Index`)
to most specific, with the sentinels at the end. -/
def ranksData : List rankData :=
  (List.range 17).map (fun i => { rank := 16 - i, data := [], total := 0 })

/-- Go `data[t]++` on a map modelled as an association list: increment the
entry whose key equals `t` (full structural equality, as for a Go map key),
appending a fresh entry with count 1 when the key is absent. -/
def bump : List (Taxon × Nat) → Taxon → List (Taxon × Nat)
  | [], t => [(t, 1)]
  | (k, v) :: rest, t =>
      if k = t then (k, v + 1) :: rest else (k, v) :: bump rest t

/-- One iteration of the population loop of `New`:
`ranks[t.Rank.Index()].data[t]++; ranks[t.Rank.Index()].total++`.
The bucket at position `i` of `ranksData` has rank `16 - i`, so updating the
bucket whose `rank` equals `t.Rank` is the source's index update whenever
`t.Rank ≤ Empire`; for an out-of-range rank (where the Go code would panic on
a negative slice index) no bucket matches and the taxon is ignored. -/
def bucketUpd (rd : rankData) (t : Taxon) : rankData :=
  if rd.rank = t.Rank then
    { rd with data := bump rd.data t, total := rd.total + 1 }
  else rd

/-- See `bucketUpd`: the population step applied to the whole bucket slice. -/
def addTaxon (ranks : List rankData) (t : Taxon) : List rankData :=
  ranks.map fun rd => bucketUpd rd t

/-- The population loop of `New`: every taxon of every retained item is
tallied into the bucket of its rank. -/
def populateRanks (taxons : List (List Taxon)) : List rankData :=
  taxons.foldl (fun acc cs => cs.foldl addTaxon acc) ranksData

/-- removeEmptyRanks mirrors the Go function: buckets with `total == 0`
are dropped. -/
def removeEmptyRanks (ranks : List rankData) : List rankData :=
  ranks.filter (fun rd => rd.total ≠ 0)

/-- The scanning loop of `maxTaxon`: `var max int; var cld Taxon;
for k, v := range rd.data { if v > max { max = v; cld = k } }`. -/
def maxFold (l : List (Taxon × Nat)) : Nat × Taxon :=
  l.foldl
    (fun (acc : Nat × Taxon) kv => if kv.2 > acc.1 then (kv.2, kv.1) else acc)
    (0, zeroTaxon)

/-- maxTaxon mirrors the Go function: scan the bucket's map for the first
strictly greater count; if the winning taxon's name is empty report the zero
Taxon; the returned fraction is `max / namesNum`. -/
def maxTaxon (namesNum : Nat) (rd : rankData) : Taxon × ℚ :=
  let mc := maxFold rd.data
  let res := if mc.2.Name ≠ "" then mc.2 else zeroTaxon
  (res, mkRat mc.1 namesNum)

/-- getTaxDist mirrors the Go function: one `TaxonDist` per distinct key of
the bucket's map, in map-enumeration (here: insertion) order. -/
def getTaxDist (namesNum : Nat) (tx : rankData) : List TaxonDist :=
  tx.data.map fun kv =>
    { NamesNum := kv.2, Name := kv.1.Name
      Percentage := mkRat kv.2 namesNum }

/-- isMaxTaxon mirrors the Go function: the candidate percentage is kept only
when exactly one entry of the distribution attains it. -/
def isMaxTaxon (cd : List TaxonDist) (percentage : ℚ) : Bool :=
  (cd.countP (fun d => d.Percentage = percentage)) = 1

/-- The six standard ranks of the `switch` of `calcStats`
(`case Kingdom, Phylum, Class, Order, Family, Genus`). -/
def standardSix (r : Rank) : Prop :=
  r = Kingdom ∨ r = Phylum ∨ r = Class ∨ r = Order ∨ r = Family ∨ r = Genus

instance (r : Rank) : Decidable (standardSix r) := by
  unfold standardSix; infer_instance

/-- Loop state of `calcStats`: the result under construction plus the local
variables `txnDistr`, `mainTaxon`, `txnPCent`, `foundMainTaxon`. -/
structure CalcState where
  res : Stats
  txnDistr : List TaxonDist
  mainTaxon : Taxon
  txnPCent : ℚ
  foundMainTaxon : Bool
deriving DecidableEq, Repr

/-- One iteration of the loop of `calcStats` over the bucket at `reverseIdx`
(the buckets are folded in reversed order, most specific first). -/
def calcStep (namesNum : Nat) (threshold : ℚ) (st : CalcState)
    (rd : rankData) : CalcState :=
  if rd.rank ≤ Unknown then st
  else
    let txnP := maxTaxon namesNum rd
    let txn := txnP.1
    let pcent := txnP.2
    let sixCase := standardSix rd.rank
    let txnDistr := if sixCase then getTaxDist namesNum rd else st.txnDistr
    let maxTx := if sixCase ∧ isMaxTaxon txnDistr pcent then txn else zeroTaxon
    let maxPcent := if sixCase ∧ isMaxTaxon txnDistr pcent then pcent else 0
    let res0 := st.res
    let res :=
      if maxTx.Rank = Kingdom then
        { res0 with Kingdom := maxTx, KingdomPercentage := maxPcent,
                    Kingdoms := txnDistr }
      else if maxTx.Rank = Phylum then
        { res0 with Phylum := maxTx, PhylumPercentage := maxPcent }
      else if maxTx.Rank = Class then
        { res0 with Class := maxTx, ClassPercentage := maxPcent }
      else if maxTx.Rank = Order then
        { res0 with Order := maxTx, OrderPercentage := maxPcent }
      else if maxTx.Rank = Family then
        { res0 with Family := maxTx, FamilyPercentage := maxPcent }
      else if maxTx.Rank = Genus then
        { res0 with Genus := maxTx, GenusPercentage := maxPcent }
      else res0
    if pcent > threshold ∧ st.foundMainTaxon = false then
      { res := res, txnDistr := txnDistr, mainTaxon := txn, txnPCent := pcent,
        foundMainTaxon := true }
    else
      { res := res, txnDistr := txnDistr, mainTaxon := st.mainTaxon,
        txnPCent := st.txnPCent, foundMainTaxon := st.foundMainTaxon }

/-- Initial state of the loop of `calcStats`: zero-valued locals and the
result holding only `NamesNum`. -/
def initState (namesNum : Nat) : CalcState :=
  { res := { emptyStats with NamesNum := namesNum }, txnDistr := [],
    mainTaxon := zeroTaxon, txnPCent := 0, foundMainTaxon := false }

/-- calcStats mirrors the Go function: fold the surviving buckets in reverse
order (most specific rank first) and install the main-taxon pair at the end. -/
def calcStats (namesNum : Nat) (ranks : List rankData) (threshold : ℚ) :
    Stats :=
  let fin := ranks.reverse.foldl (calcStep namesNum threshold)
    (initState namesNum)
  { fin.res with MainTaxon := fin.mainTaxon,
                 MainTaxonPercentage := fin.txnPCent }

/-- One step of the classification pass of `extractTaxons`: a taxon whose
rank is still `Empty` gets the canonical rank of its label. -/
def classifyTaxon (t : Taxon) : Taxon :=
  if t.Rank = Empty then { t with Rank := NewRank t.RankStr } else t

/-- Classification of a whole item, as performed in place by the inner loop
of `extractTaxons`. -/
def classifyTaxons (ts : List Taxon) : List Taxon :=
  ts.map classifyTaxon

/-- The usability test of the inner loop of `extractTaxons`:
`t.Rank != Unknown && t.Rank <= Genus`. -/
def genusOrLessP (t : Taxon) : Bool :=
  decide (t.Rank ≠ Unknown) && decide (t.Rank ≤ Genus)

/-- The inner loop of `extractTaxons` over one item: classify each taxon in
turn and track the `genusOrLess` flag. -/
def extractItem (ts : List Taxon) : List Taxon × Bool :=
  ts.foldl
    (fun acc t =>
      let t' := classifyTaxon t
      (acc.1 ++ [t'], acc.2 || genusOrLessP t'))
    ([], false)

/-- One iteration of the outer loop of `extractTaxons`: append the
classified item when its `genusOrLess` flag is set. -/
def extractStep (res : List (List Taxon)) (hh : Hierarchy) :
    List (List Taxon) :=
  let p := extractItem hh.Taxons
  if p.2 then res ++ [p.1] else res

/-- extractTaxons mirrors the Go function: classify every taxon of every
item and keep exactly the items having at least one taxon of a known rank at
genus level or more specific. -/
def extractTaxons (h : List Hierarchy) : List (List Taxon) :=
  h.foldl extractStep []

/-- New mirrors the Go entry point: clamp the threshold to at least 1/2,
extract the usable items, short-circuit on a single retained item, otherwise
aggregate per rank, prune empty buckets and compute the statistics. -/
def New (h : List Hierarchy) (threshold : ℚ) : Stats :=
  let threshold := if threshold < mkRat 1 2 then mkRat 1 2 else threshold
  let taxons := extractTaxons h
  if taxons.length = 1 then emptyStats
  else
    let namesNum := taxons.length
    let ranks := populateRanks taxons
    let ranks := removeEmptyRanks ranks
    calcStats namesNum ranks threshold

/-- Claim-side definition for the main-taxon scan, following the spec's
words: walk the surviving buckets from most specific to most general, skip
the non-comparable sentinel ranks, and return the `maxTaxon` pair of the
first rank whose occurrence fraction strictly exceeds the threshold; if no
rank qualifies, return the empty Taxon with percentage 0. -/
def firstQualifying (namesNum : Nat) (threshold : ℚ) :
    List rankData → Taxon × ℚ
  | [] => (zeroTaxon, 0)
  | rd :: rest =>
      if rd.rank ≤ Unknown then firstQualifying namesNum threshold rest
      else if (maxTaxon namesNum rd).2 > threshold then maxTaxon namesNum rd
      else firstQualifying namesNum threshold rest

/-! ### Extraction lemmas -/

theorem extractItem_foldl (ts : List Taxon) (l : List Taxon) (b : Bool) :
    ts.foldl
      (fun acc t =>
        let t' := classifyTaxon t
        (acc.1 ++ [t'], acc.2 || genusOrLessP t'))
      (l, b)
    = (l ++ classifyTaxons ts, b || (classifyTaxons ts).any genusOrLessP) := by
  induction ts generalizing l b with
  | nil => simp [classifyTaxons]
  | cons t ts ih =>
      simp only [List.foldl_cons, ih, classifyTaxons, List.map_cons,
        List.any_cons, List.append_assoc, List.singleton_append,
        Bool.or_assoc]

theorem extractItem_eq (ts : List Taxon) :
    extractItem ts = (classifyTaxons ts, (classifyTaxons ts).any genusOrLessP) := by
  simpa [extractItem] using extractItem_foldl ts [] false

theorem extractStep_eq (res : List (List Taxon)) (hh : Hierarchy) :
    extractStep res hh
    = if (classifyTaxons hh.Taxons).any genusOrLessP then
        res ++ [classifyTaxons hh.Taxons]
      else res := by
  rw [extractStep, extractItem_eq]

theorem extractTaxons_foldl (h : List Hierarchy) (res : List (List Taxon)) :
    h.foldl extractStep res
    = res ++ ((h.map fun hh => classifyTaxons hh.Taxons).filter
        fun ts => ts.any genusOrLessP) := by
  induction h generalizing res with
  | nil => simp
  | cons hh h ih =>
      rw [List.foldl_cons, extractStep_eq]
      by_cases hg : (classifyTaxons hh.Taxons).any genusOrLessP
      · simp only [hg, if_true, ih, List.map_cons, List.filter_cons, hg,
          List.append_assoc, List.singleton_append]
      · simp only [hg, if_false, ih, List.map_cons, List.filter_cons,
          Bool.false_eq_true, List.append_assoc]

/-- The extractor keeps exactly the (classified) items having a usable
taxon. -/
theorem extractTaxons_eq (h : List Hierarchy) :
    extractTaxons h
    = ((h.map fun hh => classifyTaxons hh.Taxons).filter
        fun ts => ts.any genusOrLessP) := by
  simpa [extractTaxons] using extractTaxons_foldl h []

/-- C3: the extractor keeps an item if and only if at least one taxon of
its (classified) sequence has a canonical rank that is not `Unknown` and is
at genus level or more specific (`Rank ≤ Genus`); every other item is
dropped entirely: `extractTaxons` is exactly the filter of the classified
items by that existence test. -/
theorem C3_extractTaxons_keeps_iff_genus_or_less (h : List Hierarchy) :
    extractTaxons h
    = ((h.map fun hh => classifyTaxons hh.Taxons).filter
        fun ts => ts.any fun u => decide (u.Rank ≠ Unknown ∧ u.Rank ≤ Genus)) := by
  rw [extractTaxons_eq]
  apply List.filter_congr
  intro ts _
  congr 1
  funext u
  simp [genusOrLessP]

/-! ### Short-circuit and empty-input lemmas -/

theorem populateRanks_nil : populateRanks [] = ranksData := rfl

theorem removeEmptyRanks_ranksData : removeEmptyRanks ranksData = [] := by decide

theorem calcStats_nil (n : Nat) (th : ℚ) :
    calcStats n [] th = { emptyStats with NamesNum := n } := rfl

/-- C4: whenever at most one item survives extraction, `New` returns the
zero `Stats` value: `NamesNum = 0`, every Taxon field is the zero Taxon and
every percentage is 0. -/
theorem C4_le_one_item_all_zero (h : List Hierarchy) (t : ℚ)
    (hle : (extractTaxons h).length ≤ 1) :
    New h t = emptyStats := by
  unfold New
  rcases Nat.lt_or_ge (extractTaxons h).length 1 with h0 | h1
  · have hz : (extractTaxons h).length = 0 := by omega
    have hnil : extractTaxons h = [] := List.length_eq_zero.mp hz
    simp [hnil, populateRanks_nil, removeEmptyRanks_ranksData, calcStats_nil,
      emptyStats]
  · have h1' : (extractTaxons h).length = 1 := by omega
    simp [h1']

/-- C4 witness at a concrete input. -/
theorem C4_le_one_item_all_zero_witness :
    (extractTaxons [⟨[⟨"f", "Felis", "genus", 0⟩]⟩]).length ≤ 1 ∧
      New [⟨[⟨"f", "Felis", "genus", 0⟩]⟩] (mkRat 7 10) = emptyStats :=
  ⟨by decide, C4_le_one_item_all_zero [⟨[⟨"f", "Felis", "genus", 0⟩]⟩] (mkRat 7 10)
    (by decide)⟩

/-- C10: divisions by `namesNum` (inside `maxTaxon` and `getTaxDist`) are
only reachable from `New` when at least two items were retained: for every
input, either exactly one item is retained (and `New` short-circuits before
aggregating), or every rank bucket is pruned (so the loop of `calcStats`
never runs and neither `maxTaxon` nor `getTaxDist` is invoked), or the
retained count — the `namesNum` passed to both divisions — is at least 2. -/
theorem C10_no_division_by_zero (h : List Hierarchy) :
    (extractTaxons h).length = 1 ∨
      removeEmptyRanks (populateRanks (extractTaxons h)) = [] ∨
      2 ≤ (extractTaxons h).length := by
  rcases hn : (extractTaxons h).length with _ | n
  · have hnil : extractTaxons h = [] := List.length_eq_zero.mp hn
    right; left
    rw [hnil, populateRanks_nil, removeEmptyRanks_ranksData]
  · rcases n with _ | n
    · left; rfl
    · right; right; omega

/-! ### Main-taxon scan lemmas -/

theorem calcStep_main_fields (n : Nat) (th : ℚ) (st : CalcState)
    (rd : rankData) :
    ((calcStep n th st rd).mainTaxon = st.mainTaxon ∧
     (calcStep n th st rd).txnPCent = st.txnPCent ∧
     (calcStep n th st rd).foundMainTaxon = st.foundMainTaxon) ∨
    (¬ rd.rank ≤ Unknown ∧ (maxTaxon n rd).2 > th ∧
     st.foundMainTaxon = false ∧
     (calcStep n th st rd).mainTaxon = (maxTaxon n rd).1 ∧
     (calcStep n th st rd).txnPCent = (maxTaxon n rd).2 ∧
     (calcStep n th st rd).foundMainTaxon = true) := by
  unfold calcStep
  by_cases h1 : rd.rank ≤ Unknown
  · left; simp [h1]
  · by_cases h2 : (maxTaxon n rd).2 > th ∧ st.foundMainTaxon = false
    · right
      refine ⟨h1, h2.1, h2.2, ?_⟩
      simp [h1, h2]
    · left
      simp [h1, h2]

theorem foldl_main_found (n : Nat) (th : ℚ) (l : List rankData) :
    ∀ st : CalcState, st.foundMainTaxon = true →
      (l.foldl (calcStep n th) st).mainTaxon = st.mainTaxon ∧
      (l.foldl (calcStep n th) st).txnPCent = st.txnPCent ∧
      (l.foldl (calcStep n th) st).foundMainTaxon = true := by
  induction l with
  | nil => intro st h; exact ⟨rfl, rfl, h⟩
  | cons rd l ih =>
      intro st h
      rw [List.foldl_cons]
      rcases calcStep_main_fields n th st rd with
        ⟨hm, hp, hf⟩ | ⟨_, _, hf0, _, _, _⟩
      · have := ih (calcStep n th st rd) (hf.trans h)
        exact ⟨this.1.trans hm, this.2.1.trans hp, this.2.2⟩
      · rw [h] at hf0; cases hf0

theorem foldl_main_notfound (n : Nat) (th : ℚ) (l : List rankData) :
    ∀ st : CalcState, st.foundMainTaxon = false →
      st.mainTaxon = zeroTaxon → st.txnPCent = 0 →
      ((l.foldl (calcStep n th) st).mainTaxon,
       (l.foldl (calcStep n th) st).txnPCent) = firstQualifying n th l := by
  induction l with
  | nil =>
      intro st _ hm hp
      rw [List.foldl_nil, firstQualifying, hm, hp]
  | cons rd l ih =>
      intro st hf hm hp
      rw [List.foldl_cons, firstQualifying]
      by_cases h1 : rd.rank ≤ Unknown
      · rw [if_pos h1]
        have hst : calcStep n th st rd = st := by
          unfold calcStep; rw [if_pos h1]
        rw [hst]
        exact ih st hf hm hp
      · rw [if_neg h1]
        by_cases h2 : (maxTaxon n rd).2 > th
        · rw [if_pos h2]
          have hstep : (calcStep n th st rd).mainTaxon = (maxTaxon n rd).1 ∧
              (calcStep n th st rd).txnPCent = (maxTaxon n rd).2 ∧
              (calcStep n th st rd).foundMainTaxon = true := by
            unfold calcStep
            simp [h1, h2, hf]
          have := foldl_main_found n th l (calcStep n th st rd) hstep.2.2
          rw [this.1, this.2.1, hstep.1, hstep.2.1]
        · rw [if_neg h2]
          have hstep : (calcStep n th st rd).mainTaxon = st.mainTaxon ∧
              (calcStep n th st rd).txnPCent = st.txnPCent ∧
              (calcStep n th st rd).foundMainTaxon = st.foundMainTaxon := by
            unfold calcStep
            simp [h1, h2]
          exact ih (calcStep n th st rd)
            (hstep.2.2.trans hf) (hstep.1.trans hm) (hstep.2.1.trans hp)

theorem calcStats_main_eq (n : Nat) (l : List rankData) (th : ℚ) :
    ((calcStats n l th).MainTaxon, (calcStats n l th).MainTaxonPercentage)
    = firstQualifying n th l.reverse :=
  foldl_main_notfound n th l.reverse (initState n) rfl rfl rfl

/-- C1 (amended): for every input whose retained-item count is not 1 (so
that `New` does not short-circuit), the MainTaxon pair reported by `New` is
obtained by scanning the surviving rank buckets from most specific to most
general, ignoring the tie-guard of the display fields, and taking the
`maxTaxon` pair of the first comparable rank whose occurrence fraction
strictly exceeds the clamped threshold; later ranks are not considered, and
if no rank qualifies the result is the empty Taxon with percentage 0. -/
theorem C1_mainTaxon_first_qualifying (h : List Hierarchy) (t : ℚ)
    (hne : (extractTaxons h).length ≠ 1) :
    ((New h t).MainTaxon, (New h t).MainTaxonPercentage)
    = firstQualifying (extractTaxons h).length
        (if t < mkRat 1 2 then mkRat 1 2 else t)
        ((removeEmptyRanks (populateRanks (extractTaxons h))).reverse) := by
  simp only [New]
  rw [if_neg hne]
  exact calcStats_main_eq _ _ _

/-- C1 witness at a concrete input: two genus-level items, one dominant. -/
theorem C1_mainTaxon_first_qualifying_witness :
    (extractTaxons [⟨[⟨"a", "Puma", "x", 4⟩]⟩, ⟨[⟨"a", "Puma", "x", 4⟩]⟩]).length ≠ 1 ∧
      ((New [⟨[⟨"a", "Puma", "x", 4⟩]⟩, ⟨[⟨"a", "Puma", "x", 4⟩]⟩] (mkRat 7 10)).MainTaxon,
       (New [⟨[⟨"a", "Puma", "x", 4⟩]⟩, ⟨[⟨"a", "Puma", "x", 4⟩]⟩] (mkRat 7 10)).MainTaxonPercentage)
      = firstQualifying
          (extractTaxons [⟨[⟨"a", "Puma", "x", 4⟩]⟩, ⟨[⟨"a", "Puma", "x", 4⟩]⟩]).length
          (if mkRat 7 10 < mkRat 1 2 then mkRat 1 2 else mkRat 7 10)
          ((removeEmptyRanks (populateRanks
            (extractTaxons [⟨[⟨"a", "Puma", "x", 4⟩]⟩, ⟨[⟨"a", "Puma", "x", 4⟩]⟩]))).reverse) :=
  ⟨by decide,
   C1_mainTaxon_first_qualifying
     [⟨[⟨"a", "Puma", "x", 4⟩]⟩, ⟨[⟨"a", "Puma", "x", 4⟩]⟩] (mkRat 7 10) (by decide)⟩

/-- C1 counterexample: with a single retained item, `New` short-circuits and
reports the empty MainTaxon, while the scan over the surviving buckets (one
genus bucket holding the item's taxon at fraction 1 > 3/5) qualifies, so the
claim as stated fails for single-item inputs. -/
theorem C1_single_item_counterexample :
    ¬ (((New [⟨[⟨"f", "Felis", "x", 4⟩]⟩] (mkRat 3 5)).MainTaxon,
        (New [⟨[⟨"f", "Felis", "x", 4⟩]⟩] (mkRat 3 5)).MainTaxonPercentage)
       = firstQualifying (extractTaxons [⟨[⟨"f", "Felis", "x", 4⟩]⟩]).length
           (if mkRat 3 5 < mkRat 1 2 then mkRat 1 2 else mkRat 3 5)
           ((removeEmptyRanks (populateRanks
             (extractTaxons [⟨[⟨"f", "Felis", "x", 4⟩]⟩]))).reverse)) := by
  decide

/-! ### Threshold clamp -/

theorem foldl_txnPCent_cases (n : Nat) (th : ℚ) (l : List rankData) :
    ∀ st : CalcState, st.txnPCent = 0 ∨ th < st.txnPCent →
      (l.foldl (calcStep n th) st).txnPCent = 0 ∨
        th < (l.foldl (calcStep n th) st).txnPCent := by
  induction l with
  | nil => intro st hst; exact hst
  | cons rd l ih =>
      intro st hst
      rw [List.foldl_cons]
      rcases calcStep_main_fields n th st rd with
        ⟨_, hp, _⟩ | ⟨_, hgt, _, _, hp, _⟩
      · exact ih _ (hp ▸ hst)
      · exact ih _ (Or.inr (hp ▸ hgt))

theorem New_MainTaxonPercentage_cases (h : List Hierarchy) (t : ℚ) :
    (New h t).MainTaxonPercentage = 0 ∨
      (if t < mkRat 1 2 then mkRat 1 2 else t) < (New h t).MainTaxonPercentage := by
  simp only [New]
  by_cases hl : (extractTaxons h).length = 1
  · rw [if_pos hl]; exact Or.inl rfl
  · rw [if_neg hl]
    exact foldl_txnPCent_cases _ _ _ (initState _) (Or.inl rfl)

/-- C6: requesting a threshold below 1/2 produces exactly the Stats of
threshold 1/2, and the effective threshold is never below 1/2: the reported
MainTaxonPercentage is either 0 (no main taxon found) or a strict majority
fraction (> 1/2). -/
theorem C6_threshold_clamped (h : List Hierarchy) (t : ℚ) (ht : t < mkRat 1 2) :
    New h t = New h (mkRat 1 2) ∧
      ((New h t).MainTaxonPercentage = 0 ∨
        mkRat 1 2 < (New h t).MainTaxonPercentage) := by
  constructor
  · unfold New
    rw [if_pos ht, if_neg (lt_irrefl (mkRat 1 2))]
  · rcases New_MainTaxonPercentage_cases h t with h0 | hgt
    · exact Or.inl h0
    · right
      rw [if_pos ht] at hgt
      exact hgt

/-- C6 witness at a concrete input with threshold 0. -/
theorem C6_threshold_clamped_witness :
    (0 : ℚ) < mkRat 1 2 ∧
      (New [⟨[⟨"a", "Puma", "x", 4⟩]⟩, ⟨[⟨"a", "Puma", "x", 4⟩]⟩] 0
        = New [⟨[⟨"a", "Puma", "x", 4⟩]⟩, ⟨[⟨"a", "Puma", "x", 4⟩]⟩] (mkRat 1 2) ∧
       ((New [⟨[⟨"a", "Puma", "x", 4⟩]⟩, ⟨[⟨"a", "Puma", "x", 4⟩]⟩] 0).MainTaxonPercentage = 0 ∨
        mkRat 1 2 < (New [⟨[⟨"a", "Puma", "x", 4⟩]⟩, ⟨[⟨"a", "Puma", "x", 4⟩]⟩] 0).MainTaxonPercentage)) :=
  ⟨by decide,
   C6_threshold_clamped [⟨[⟨"a", "Puma", "x", 4⟩]⟩, ⟨[⟨"a", "Puma", "x", 4⟩]⟩] 0
     (by decide)⟩

/-! ### Bucket structure invariants -/

/-- Every key stored in a bucket carries the bucket's rank. -/
def keysOk (rd : rankData) : Prop :=
  ∀ kv ∈ rd.data, (kv : Taxon × Nat).1.Rank = rd.rank

instance (rd : rankData) : Decidable (keysOk rd) := by
  unfold keysOk; infer_instance

theorem bump_mem (l : List (Taxon × Nat)) (t : Taxon) :
    ∀ kv ∈ bump l t, kv ∈ l ∨ kv.1 = t := by
  induction l with
  | nil =>
      intro kv hkv
      simp only [bump, List.mem_singleton] at hkv
      exact Or.inr (by rw [hkv])
  | cons p rest ih =>
      intro kv hkv
      rw [bump] at hkv
      by_cases hpt : p.1 = t
      · rw [if_pos hpt] at hkv
        rcases List.mem_cons.mp hkv with h | h
        · exact Or.inr (by rw [h]; exact hpt)
        · exact Or.inl (List.mem_cons_of_mem _ h)
      · rw [if_neg hpt] at hkv
        rcases List.mem_cons.mp hkv with h | h
        · exact Or.inl (by rw [h]; exact List.mem_cons_self _ _)
        · rcases ih kv h with h' | h'
          · exact Or.inl (List.mem_cons_of_mem _ h')
          · exact Or.inr h'

theorem bucketUpd_rank (rd : rankData) (t : Taxon) :
    (bucketUpd rd t).rank = rd.rank := by
  unfold bucketUpd
  split_ifs <;> rfl

theorem addTaxon_rank_map (ranks : List rankData) (t : Taxon) :
    (addTaxon ranks t).map rankData.rank = ranks.map rankData.rank := by
  unfold addTaxon
  rw [List.map_map]
  apply List.map_congr_left
  intro rd _
  exact bucketUpd_rank rd t

theorem addTaxon_keysOk (ranks : List rankData) (t : Taxon)
    (hk : ∀ rd ∈ ranks, keysOk rd) :
    ∀ rd' ∈ addTaxon ranks t, keysOk rd' := by
  intro rd' hrd'
  unfold addTaxon at hrd'
  rcases List.mem_map.mp hrd' with ⟨rd, hrd, hEq⟩
  unfold bucketUpd at hEq
  by_cases hr : rd.rank = t.Rank
  · rw [if_pos hr] at hEq
    intro kv hkv
    rw [← hEq] at hkv ⊢
    simp only at hkv ⊢
    rcases bump_mem rd.data t kv hkv with h | h
    · exact hk rd hrd kv h
    · rw [h, hr]
  · rw [if_neg hr] at hEq
    rw [← hEq]
    exact hk rd hrd

theorem foldl_addTaxon_rank_map (cs : List Taxon) :
    ∀ acc : List rankData,
      (cs.foldl addTaxon acc).map rankData.rank = acc.map rankData.rank := by
  induction cs with
  | nil => intro acc; rfl
  | cons c cs ih =>
      intro acc
      rw [List.foldl_cons, ih, addTaxon_rank_map]

theorem foldl_addTaxon_keysOk (cs : List Taxon) :
    ∀ acc : List rankData, (∀ rd ∈ acc, keysOk rd) →
      ∀ rd' ∈ cs.foldl addTaxon acc, keysOk rd' := by
  induction cs with
  | nil => intro acc h; exact h
  | cons c cs ih =>
      intro acc h
      rw [List.foldl_cons]
      exact ih _ (addTaxon_keysOk acc c h)

theorem populateRanks_rank_map (taxons : List (List Taxon)) :
    (populateRanks taxons).map rankData.rank = ranksData.map rankData.rank := by
  unfold populateRanks
  suffices hgen : ∀ acc : List rankData,
      (taxons.foldl (fun acc cs => cs.foldl addTaxon acc) acc).map rankData.rank
        = acc.map rankData.rank by
    exact hgen ranksData
  induction taxons with
  | nil => intro acc; rfl
  | cons cs taxons ih =>
      intro acc
      rw [List.foldl_cons, ih, foldl_addTaxon_rank_map]

theorem populateRanks_keysOk (taxons : List (List Taxon)) :
    ∀ rd ∈ populateRanks taxons, keysOk rd := by
  unfold populateRanks
  suffices hgen : ∀ acc : List rankData, (∀ rd ∈ acc, keysOk rd) →
      ∀ rd ∈ taxons.foldl (fun acc cs => cs.foldl addTaxon acc) acc, keysOk rd by
    refine hgen ranksData ?_
    intro rd hrd kv hkv
    rcases List.mem_map.mp (by exact hrd : rd ∈ _) with ⟨i, _, hEq⟩
    rw [← hEq] at hkv
    simp at hkv
  induction taxons with
  | nil => intro acc h; exact h
  | cons cs taxons ih =>
      intro acc h
      rw [List.foldl_cons]
      exact ih _ (foldl_addTaxon_keysOk cs acc h)

theorem removeEmptyRanks_sublist (ranks : List rankData) :
    (removeEmptyRanks ranks).Sublist ranks :=
  List.filter_sublist ranks

theorem pruned_keysOk (taxons : List (List Taxon)) :
    ∀ rd ∈ removeEmptyRanks (populateRanks taxons), keysOk rd := by
  intro rd hrd
  exact populateRanks_keysOk taxons rd
    ((removeEmptyRanks_sublist _).mem hrd)

theorem countP_le_one_of_nodup_map {l : List rankData} (r : Rank)
    (h : (l.map rankData.rank).Nodup) :
    l.countP (fun rd => decide (rd.rank = r)) ≤ 1 := by
  induction l with
  | nil => simp
  | cons rd l ih =>
      rw [List.map_cons, List.nodup_cons] at h
      by_cases hr : rd.rank = r
      · rw [List.countP_cons_of_pos _ _ (by simpa using hr)]
        have hzero : l.countP (fun rd => decide (rd.rank = r)) = 0 := by
          rw [List.countP_eq_zero]
          intro rd' hrd'
          simp only [decide_eq_true_eq]
          intro hEq
          apply h.1
          rw [hr, ← hEq]
          exact List.mem_map_of_mem rankData.rank hrd'
        omega
      · rw [List.countP_cons_of_neg _ _ (by simpa using hr)]
        exact ih h.2

theorem pruned_countP_le_one (taxons : List (List Taxon)) (r : Rank) :
    (removeEmptyRanks (populateRanks taxons)).countP
      (fun rd => decide (rd.rank = r)) ≤ 1 := by
  apply countP_le_one_of_nodup_map
  have hsub : ((removeEmptyRanks (populateRanks taxons)).map rankData.rank).Sublist
      ((populateRanks taxons).map rankData.rank) :=
    (removeEmptyRanks_sublist _).map rankData.rank
  have hnd : ((populateRanks taxons).map rankData.rank).Nodup := by
    rw [populateRanks_rank_map]
    decide
  exact hnd.sublist hsub

/-! ### maxTaxon lemmas -/

theorem maxTaxon_fst (n : Nat) (rd : rankData) :
    (maxTaxon n rd).1 =
      if (maxFold rd.data).2.Name ≠ "" then (maxFold rd.data).2
      else zeroTaxon := rfl

theorem maxTaxon_snd (n : Nat) (rd : rankData) :
    (maxTaxon n rd).2 = mkRat (maxFold rd.data).1 n := rfl

theorem maxFold_cases (l : List (Taxon × Nat)) :
    maxFold l = (0, zeroTaxon) ∨ ∃ kv ∈ l, maxFold l = (kv.2, kv.1) := by
  unfold maxFold
  suffices hgen : ∀ acc : Nat × Taxon,
      l.foldl (fun acc kv => if kv.2 > acc.1 then (kv.2, kv.1) else acc) acc = acc ∨
        ∃ kv ∈ l,
          l.foldl (fun acc kv => if kv.2 > acc.1 then (kv.2, kv.1) else acc) acc
            = (kv.2, kv.1) by
    rcases hgen (0, zeroTaxon) with h | ⟨kv, hm, h⟩
    · exact Or.inl h
    · exact Or.inr ⟨kv, hm, h⟩
  induction l with
  | nil => intro acc; exact Or.inl rfl
  | cons kv l ih =>
      intro acc
      rw [List.foldl_cons]
      by_cases hgt : kv.2 > acc.1
      · rw [if_pos hgt]
        rcases ih (kv.2, kv.1) with h | ⟨kv', hm', h⟩
        · exact Or.inr ⟨kv, List.mem_cons_self _ _, h⟩
        · exact Or.inr ⟨kv', List.mem_cons_of_mem _ hm', h⟩
      · rw [if_neg hgt]
        rcases ih acc with h | ⟨kv', hm', h⟩
        · exact Or.inl h
        · exact Or.inr ⟨kv', List.mem_cons_of_mem _ hm', h⟩

theorem maxTaxon_fst_cases (n : Nat) (rd : rankData) (hk : keysOk rd) :
    (maxTaxon n rd).1 = zeroTaxon ∨
      ((maxTaxon n rd).1.Rank = rd.rank ∧ (maxTaxon n rd).1.Name ≠ "") := by
  rw [maxTaxon_fst]
  rcases maxFold_cases rd.data with h | ⟨kv, hm, h⟩ <;> rw [h]
  · left
    simp [zeroTaxon]
  · by_cases hn : kv.1.Name ≠ ""
    · right
      rw [if_pos hn]
      exact ⟨hk kv hm, hn⟩
    · left
      rw [if_neg hn]

theorem maxTaxon_fst_zero_of_name (n : Nat) (rd : rankData)
    (hn : ¬ (maxTaxon n rd).1.Name ≠ "") : (maxTaxon n rd).1 = zeroTaxon := by
  rw [maxTaxon_fst] at hn ⊢
  by_cases hmn : (maxFold rd.data).2.Name ≠ ""
  · rw [if_pos hmn] at hn
    exact absurd hmn hn
  · rw [if_neg hmn]

/-! ### Stats field selectors and the per-step result characterization -/

/-- Selector for the dominant-taxon field of one of the six standard ranks. -/
def fieldOf (s : Stats) (r : Rank) : Taxon :=
  if r = Kingdom then s.Kingdom
  else if r = Phylum then s.Phylum
  else if r = Class then s.Class
  else if r = Order then s.Order
  else if r = Family then s.Family
  else if r = Genus then s.Genus
  else zeroTaxon

/-- Selector for the percentage field of one of the six standard ranks. -/
def pctOf (s : Stats) (r : Rank) : ℚ :=
  if r = Kingdom then s.KingdomPercentage
  else if r = Phylum then s.PhylumPercentage
  else if r = Class then s.ClassPercentage
  else if r = Order then s.OrderPercentage
  else if r = Family then s.FamilyPercentage
  else if r = Genus then s.GenusPercentage
  else 0

/-- The record update performed by the `switch maxTx.Rank` of `calcStats`
when the dominant taxon of rank `r` is surfaced. -/
def recordAt (s : Stats) (r : Rank) (tx : Taxon) (p : ℚ)
    (d : List TaxonDist) : Stats :=
  if r = Kingdom then
    { s with Kingdom := tx, KingdomPercentage := p, Kingdoms := d }
  else if r = Phylum then { s with Phylum := tx, PhylumPercentage := p }
  else if r = Class then { s with Class := tx, ClassPercentage := p }
  else if r = Order then { s with Order := tx, OrderPercentage := p }
  else if r = Family then { s with Family := tx, FamilyPercentage := p }
  else if r = Genus then { s with Genus := tx, GenusPercentage := p }
  else s

/-- Whether a bucket's `maxTaxon` candidate passes both the tie-guard
(`isMaxTaxon`) and the nonempty-name guard of `maxTaxon`. -/
def qualifies (n : Nat) (rd : rankData) : Prop :=
  isMaxTaxon (getTaxDist n rd) (maxTaxon n rd).2 = true ∧
    (maxTaxon n rd).1.Name ≠ ""

instance (n : Nat) (rd : rankData) : Decidable (qualifies n rd) := by
  unfold qualifies; infer_instance

theorem calcStep_res_eq (n : Nat) (th : ℚ) (st : CalcState) (rd : rankData)
    (hk : keysOk rd) :
    (calcStep n th st rd).res =
      if rd.rank ≤ Unknown then st.res
      else if qualifies n rd ∧ standardSix rd.rank then
        recordAt st.res rd.rank (maxTaxon n rd).1 (maxTaxon n rd).2
          (getTaxDist n rd)
      else st.res := by
  unfold calcStep
  by_cases h1 : rd.rank ≤ Unknown
  · simp [h1]
  · simp only [Unknown] at h1
    by_cases hsix : standardSix rd.rank
    · by_cases him : isMaxTaxon (getTaxDist n rd) (maxTaxon n rd).2 = true
      · by_cases hname : (maxTaxon n rd).1.Name ≠ ""
        · have hrank : (maxTaxon n rd).1.Rank = rd.rank :=
            ((maxTaxon_fst_cases n rd hk).resolve_left
              (fun hz => hname (by rw [hz]; rfl))).1
          have hq : qualifies n rd := ⟨him, hname⟩
          by_cases hfound : (maxTaxon n rd).2 > th ∧ st.foundMainTaxon = false <;>
            rcases hsix with h6 | h6 | h6 | h6 | h6 | h6 <;>
              simp [h1, hfound, hq, him, hname, hrank, h6, qualifies,
                standardSix, recordAt, Kingdom, Phylum, Class, Order, Family,
                Genus, Unknown]
        · have hz := maxTaxon_fst_zero_of_name n rd hname
          have hq : ¬ qualifies n rd := fun hc => hname hc.2
          by_cases hfound : (maxTaxon n rd).2 > th ∧ st.foundMainTaxon = false <;>
            simp [h1, hfound, hsix, him, hz, hq, zeroTaxon, Kingdom, Phylum,
              Class, Order, Family, Genus, Empty, Unknown]
      · have hq : ¬ qualifies n rd := fun hc => him hc.1
        by_cases hfound : (maxTaxon n rd).2 > th ∧ st.foundMainTaxon = false <;>
          simp [h1, hfound, hsix, him, hq, zeroTaxon, Kingdom, Phylum, Class,
            Order, Family, Genus, Empty, Unknown]
    · by_cases hfound : (maxTaxon n rd).2 > th ∧ st.foundMainTaxon = false <;>
        simp [h1, hfound, hsix, zeroTaxon, Kingdom, Phylum, Class, Order,
          Family, Genus, Empty, Unknown]

/-! ### recordAt selectors -/

theorem recordAt_of_not_six (s : Stats) (r : Rank) (tx : Taxon) (p : ℚ)
    (d : List TaxonDist) (hr : ¬ standardSix r) :
    recordAt s r tx p d = s := by
  unfold recordAt
  split_ifs with h1 h2 h3 h4 h5 h6
  · exact absurd (Or.inl h1) hr
  · exact absurd (Or.inr (Or.inl h2)) hr
  · exact absurd (Or.inr (Or.inr (Or.inl h3))) hr
  · exact absurd (Or.inr (Or.inr (Or.inr (Or.inl h4)))) hr
  · exact absurd (Or.inr (Or.inr (Or.inr (Or.inr (Or.inl h5))))) hr
  · exact absurd (Or.inr (Or.inr (Or.inr (Or.inr (Or.inr h6))))) hr
  · rfl

theorem fieldOf_recordAt_self (s : Stats) (r : Rank) (tx : Taxon) (p : ℚ)
    (d : List TaxonDist) (hr : standardSix r) :
    fieldOf (recordAt s r tx p d) r = tx := by
  rcases hr with h | h | h | h | h | h <;> subst h <;>
    simp [recordAt, fieldOf, Kingdom, Phylum, Class, Order, Family, Genus]

theorem pctOf_recordAt_self (s : Stats) (r : Rank) (tx : Taxon) (p : ℚ)
    (d : List TaxonDist) (hr : standardSix r) :
    pctOf (recordAt s r tx p d) r = p := by
  rcases hr with h | h | h | h | h | h <;> subst h <;>
    simp [recordAt, pctOf, Kingdom, Phylum, Class, Order, Family, Genus]

theorem recordAt_Kingdom (s : Stats) (r : Rank) (tx : Taxon) (p : ℚ)
    (d : List TaxonDist) (hne : r ≠ Kingdom) :
    (recordAt s r tx p d).Kingdom = s.Kingdom := by
  unfold recordAt
  split_ifs <;> first | rfl | simp_all

theorem recordAt_KingdomPercentage (s : Stats) (r : Rank) (tx : Taxon) (p : ℚ)
    (d : List TaxonDist) (hne : r ≠ Kingdom) :
    (recordAt s r tx p d).KingdomPercentage = s.KingdomPercentage := by
  unfold recordAt
  split_ifs <;> first | rfl | simp_all

theorem recordAt_Phylum (s : Stats) (r : Rank) (tx : Taxon) (p : ℚ)
    (d : List TaxonDist) (hne : r ≠ Phylum) :
    (recordAt s r tx p d).Phylum = s.Phylum := by
  unfold recordAt
  split_ifs <;> first | rfl | simp_all

theorem recordAt_PhylumPercentage (s : Stats) (r : Rank) (tx : Taxon) (p : ℚ)
    (d : List TaxonDist) (hne : r ≠ Phylum) :
    (recordAt s r tx p d).PhylumPercentage = s.PhylumPercentage := by
  unfold recordAt
  split_ifs <;> first | rfl | simp_all

theorem recordAt_Class (s : Stats) (r : Rank) (tx : Taxon) (p : ℚ)
    (d : List TaxonDist) (hne : r ≠ Class) :
    (recordAt s r tx p d).Class = s.Class := by
  unfold recordAt
  split_ifs <;> first | rfl | simp_all

theorem recordAt_ClassPercentage (s : Stats) (r : Rank) (tx : Taxon) (p : ℚ)
    (d : List TaxonDist) (hne : r ≠ Class) :
    (recordAt s r tx p d).ClassPercentage = s.ClassPercentage := by
  unfold recordAt
  split_ifs <;> first | rfl | simp_all

theorem recordAt_Order (s : Stats) (r : Rank) (tx : Taxon) (p : ℚ)
    (d : List TaxonDist) (hne : r ≠ Order) :
    (recordAt s r tx p d).Order = s.Order := by
  unfold recordAt
  split_ifs <;> first | rfl | simp_all

theorem recordAt_OrderPercentage (s : Stats) (r : Rank) (tx : Taxon) (p : ℚ)
    (d : List TaxonDist) (hne : r ≠ Order) :
    (recordAt s r tx p d).OrderPercentage = s.OrderPercentage := by
  unfold recordAt
  split_ifs <;> first | rfl | simp_all

theorem recordAt_Family (s : Stats) (r : Rank) (tx : Taxon) (p : ℚ)
    (d : List TaxonDist) (hne : r ≠ Family) :
    (recordAt s r tx p d).Family = s.Family := by
  unfold recordAt
  split_ifs <;> first | rfl | simp_all

theorem recordAt_FamilyPercentage (s : Stats) (r : Rank) (tx : Taxon) (p : ℚ)
    (d : List TaxonDist) (hne : r ≠ Family) :
    (recordAt s r tx p d).FamilyPercentage = s.FamilyPercentage := by
  unfold recordAt
  split_ifs <;> first | rfl | simp_all

theorem recordAt_Genus (s : Stats) (r : Rank) (tx : Taxon) (p : ℚ)
    (d : List TaxonDist) (hne : r ≠ Genus) :
    (recordAt s r tx p d).Genus = s.Genus := by
  unfold recordAt
  split_ifs <;> first | rfl | simp_all

theorem recordAt_GenusPercentage (s : Stats) (r : Rank) (tx : Taxon) (p : ℚ)
    (d : List TaxonDist) (hne : r ≠ Genus) :
    (recordAt s r tx p d).GenusPercentage = s.GenusPercentage := by
  unfold recordAt
  split_ifs <;> first | rfl | simp_all

theorem fieldOf_recordAt_other (s : Stats) (r : Rank) (tx : Taxon) (p : ℚ)
    (d : List TaxonDist) (r' : Rank) (hne : r' ≠ r) :
    fieldOf (recordAt s r tx p d) r' = fieldOf s r' := by
  have hner : ∀ x : Rank, r' = x → r ≠ x := fun x hx hc =>
    hne (hx.trans hc.symm)
  unfold fieldOf
  by_cases k1 : r' = Kingdom
  · rw [if_pos k1, if_pos k1]
    exact recordAt_Kingdom s r tx p d (hner Kingdom k1)
  · rw [if_neg k1, if_neg k1]
    by_cases k2 : r' = Phylum
    · rw [if_pos k2, if_pos k2]
      exact recordAt_Phylum s r tx p d (hner Phylum k2)
    · rw [if_neg k2, if_neg k2]
      by_cases k3 : r' = Class
      · rw [if_pos k3, if_pos k3]
        exact recordAt_Class s r tx p d (hner Class k3)
      · rw [if_neg k3, if_neg k3]
        by_cases k4 : r' = Order
        · rw [if_pos k4, if_pos k4]
          exact recordAt_Order s r tx p d (hner Order k4)
        · rw [if_neg k4, if_neg k4]
          by_cases k5 : r' = Family
          · rw [if_pos k5, if_pos k5]
            exact recordAt_Family s r tx p d (hner Family k5)
          · rw [if_neg k5, if_neg k5]
            by_cases k6 : r' = Genus
            · rw [if_pos k6, if_pos k6]
              exact recordAt_Genus s r tx p d (hner Genus k6)
            · rw [if_neg k6, if_neg k6]

theorem pctOf_recordAt_other (s : Stats) (r : Rank) (tx : Taxon) (p : ℚ)
    (d : List TaxonDist) (r' : Rank) (hne : r' ≠ r) :
    pctOf (recordAt s r tx p d) r' = pctOf s r' := by
  have hner : ∀ x : Rank, r' = x → r ≠ x := fun x hx hc =>
    hne (hx.trans hc.symm)
  unfold pctOf
  by_cases k1 : r' = Kingdom
  · rw [if_pos k1, if_pos k1]
    exact recordAt_KingdomPercentage s r tx p d (hner Kingdom k1)
  · rw [if_neg k1, if_neg k1]
    by_cases k2 : r' = Phylum
    · rw [if_pos k2, if_pos k2]
      exact recordAt_PhylumPercentage s r tx p d (hner Phylum k2)
    · rw [if_neg k2, if_neg k2]
      by_cases k3 : r' = Class
      · rw [if_pos k3, if_pos k3]
        exact recordAt_ClassPercentage s r tx p d (hner Class k3)
      · rw [if_neg k3, if_neg k3]
        by_cases k4 : r' = Order
        · rw [if_pos k4, if_pos k4]
          exact recordAt_OrderPercentage s r tx p d (hner Order k4)
        · rw [if_neg k4, if_neg k4]
          by_cases k5 : r' = Family
          · rw [if_pos k5, if_pos k5]
            exact recordAt_FamilyPercentage s r tx p d (hner Family k5)
          · rw [if_neg k5, if_neg k5]
            by_cases k6 : r' = Genus
            · rw [if_pos k6, if_pos k6]
              exact recordAt_GenusPercentage s r tx p d (hner Genus k6)
            · rw [if_neg k6, if_neg k6]

theorem kingdoms_recordAt (s : Stats) (r : Rank) (tx : Taxon) (p : ℚ)
    (d : List TaxonDist) :
    (recordAt s r tx p d).Kingdoms = if r = Kingdom then d else s.Kingdoms := by
  unfold recordAt
  split_ifs <;> rfl

theorem standardSix_not_le_unknown (r : Rank) (hr : standardSix r) :
    ¬ r ≤ Unknown := by
  rcases hr with h | h | h | h | h | h <;> subst h <;> decide

/-! ### Per-rank characterization of the calcStats fold -/

/-- The value a bucket contributes to its rank field of the result: the
`maxTaxon` pair when the bucket qualifies (unique maximum and nonempty name),
the default otherwise; `none` stands for an absent (pruned) bucket. -/
def onBucket {β : Type} (n : Nat) (ob : Option rankData) (f : rankData → β)
    (dft : β) : β :=
  match ob with
  | none => dft
  | some rd => if qualifies n rd then f rd else dft

theorem onBucket_none {β : Type} (n : Nat) (f : rankData → β) (dft : β) :
    onBucket n none f dft = dft := rfl

theorem onBucket_some {β : Type} (n : Nat) (rd : rankData) (f : rankData → β)
    (dft : β) :
    onBucket n (some rd) f dft = if qualifies n rd then f rd else dft := rfl

theorem calcStep_field_preserved (n : Nat) (th : ℚ) (st : CalcState)
    (rd : rankData) (r : Rank) (hk : keysOk rd) (hne : rd.rank ≠ r) :
    fieldOf (calcStep n th st rd).res r = fieldOf st.res r ∧
      pctOf (calcStep n th st rd).res r = pctOf st.res r := by
  rw [calcStep_res_eq n th st rd hk]
  split_ifs
  · exact ⟨rfl, rfl⟩
  · exact ⟨fieldOf_recordAt_other _ _ _ _ _ _ (fun hEq => hne hEq.symm),
      pctOf_recordAt_other _ _ _ _ _ _ (fun hEq => hne hEq.symm)⟩
  · exact ⟨rfl, rfl⟩

theorem calcStep_kingdoms_preserved (n : Nat) (th : ℚ) (st : CalcState)
    (rd : rankData) (hk : keysOk rd) (hne : rd.rank ≠ Kingdom) :
    (calcStep n th st rd).res.Kingdoms = st.res.Kingdoms := by
  rw [calcStep_res_eq n th st rd hk]
  split_ifs
  · rfl
  · rw [kingdoms_recordAt, if_neg hne]
  · rfl

theorem foldl_field_preserved (n : Nat) (th : ℚ) (r : Rank) :
    ∀ (l : List rankData) (st : CalcState), (∀ rd ∈ l, keysOk rd) →
      (∀ rd ∈ l, rd.rank ≠ r) →
      fieldOf (l.foldl (calcStep n th) st).res r = fieldOf st.res r ∧
        pctOf (l.foldl (calcStep n th) st).res r = pctOf st.res r := by
  intro l
  induction l with
  | nil => intro st _ _; exact ⟨rfl, rfl⟩
  | cons rd l ih =>
      intro st hk hne
      rw [List.foldl_cons]
      have hstep := calcStep_field_preserved n th st rd r
        (hk rd (List.mem_cons_self _ _)) (hne rd (List.mem_cons_self _ _))
      have hrest := ih (calcStep n th st rd)
        (fun rd' h => hk rd' (List.mem_cons_of_mem _ h))
        (fun rd' h => hne rd' (List.mem_cons_of_mem _ h))
      exact ⟨hrest.1.trans hstep.1, hrest.2.trans hstep.2⟩

theorem foldl_kingdoms_preserved (n : Nat) (th : ℚ) :
    ∀ (l : List rankData) (st : CalcState), (∀ rd ∈ l, keysOk rd) →
      (∀ rd ∈ l, rd.rank ≠ Kingdom) →
      (l.foldl (calcStep n th) st).res.Kingdoms = st.res.Kingdoms := by
  intro l
  induction l with
  | nil => intro st _ _; rfl
  | cons rd l ih =>
      intro st hk hne
      rw [List.foldl_cons]
      have hstep := calcStep_kingdoms_preserved n th st rd
        (hk rd (List.mem_cons_self _ _)) (hne rd (List.mem_cons_self _ _))
      have hrest := ih (calcStep n th st rd)
        (fun rd' h => hk rd' (List.mem_cons_of_mem _ h))
        (fun rd' h => hne rd' (List.mem_cons_of_mem _ h))
      exact hrest.trans hstep

theorem countP_zero_ranks {l : List rankData} {r : Rank}
    (h : l.countP (fun rd => decide (rd.rank = r)) = 0) :
    ∀ rd ∈ l, rd.rank ≠ r := by
  intro rd hrd hEq
  have := List.countP_eq_zero.mp h rd hrd
  simp [hEq] at this

theorem foldl_field_char (n : Nat) (th : ℚ) (r : Rank) (hr : standardSix r) :
    ∀ (l : List rankData) (st : CalcState), (∀ rd ∈ l, keysOk rd) →
      l.countP (fun rd => decide (rd.rank = r)) ≤ 1 →
      (fieldOf (l.foldl (calcStep n th) st).res r,
       pctOf (l.foldl (calcStep n th) st).res r)
      = onBucket n (l.find? (fun rd => decide (rd.rank = r))) (maxTaxon n)
          (fieldOf st.res r, pctOf st.res r) := by
  intro l
  induction l with
  | nil => intro st _ _; rfl
  | cons rd l ih =>
      intro st hk hcount
      rw [List.foldl_cons]
      by_cases hrd : rd.rank = r
      · rw [List.find?_cons_of_pos _ (by simpa using hrd), onBucket_some]
        rw [List.countP_cons_of_pos _ _ (by simpa using hrd)] at hcount
        have hcount0 : l.countP (fun rd => decide (rd.rank = r)) = 0 := by omega
        have hnone := countP_zero_ranks hcount0
        have hpres := foldl_field_preserved n th r l (calcStep n th st rd)
          (fun rd' h => hk rd' (List.mem_cons_of_mem _ h)) hnone
        rw [hpres.1, hpres.2]
        have hstep := calcStep_res_eq n th st rd (hk rd (List.mem_cons_self _ _))
        have hns : ¬ rd.rank ≤ Unknown := hrd ▸ standardSix_not_le_unknown r hr
        rw [hstep, if_neg hns]
        by_cases hq : qualifies n rd
        · rw [if_pos ⟨hq, hrd ▸ hr⟩, if_pos hq]
          subst hrd
          rw [fieldOf_recordAt_self st.res rd.rank (maxTaxon n rd).1
              (maxTaxon n rd).2 (getTaxDist n rd) hr,
            pctOf_recordAt_self st.res rd.rank (maxTaxon n rd).1
              (maxTaxon n rd).2 (getTaxDist n rd) hr]
        · rw [if_neg (fun hc => hq hc.1), if_neg hq]
      · rw [List.find?_cons_of_neg _ (by simpa using hrd)]
        rw [List.countP_cons_of_neg _ _ (by simpa using hrd)] at hcount
        have hstep := calcStep_field_preserved n th st rd r
          (hk rd (List.mem_cons_self _ _)) hrd
        have := ih (calcStep n th st rd)
          (fun rd' h => hk rd' (List.mem_cons_of_mem _ h)) hcount
        rw [hstep.1, hstep.2] at this
        exact this

theorem foldl_kingdoms_char (n : Nat) (th : ℚ) :
    ∀ (l : List rankData) (st : CalcState), (∀ rd ∈ l, keysOk rd) →
      l.countP (fun rd => decide (rd.rank = Kingdom)) ≤ 1 →
      (l.foldl (calcStep n th) st).res.Kingdoms
      = onBucket n (l.find? (fun rd => decide (rd.rank = Kingdom)))
          (getTaxDist n) st.res.Kingdoms := by
  intro l
  induction l with
  | nil => intro st _ _; rfl
  | cons rd l ih =>
      intro st hk hcount
      rw [List.foldl_cons]
      by_cases hrd : rd.rank = Kingdom
      · rw [List.find?_cons_of_pos _ (by simpa using hrd), onBucket_some]
        rw [List.countP_cons_of_pos _ _ (by simpa using hrd)] at hcount
        have hcount0 : l.countP (fun rd => decide (rd.rank = Kingdom)) = 0 := by
          omega
        have hnone := countP_zero_ranks hcount0
        have hpres := foldl_kingdoms_preserved n th l (calcStep n th st rd)
          (fun rd' h => hk rd' (List.mem_cons_of_mem _ h)) hnone
        rw [hpres]
        have hstep := calcStep_res_eq n th st rd (hk rd (List.mem_cons_self _ _))
        have hsix : standardSix rd.rank := Or.inl hrd
        have hns : ¬ rd.rank ≤ Unknown := standardSix_not_le_unknown _ hsix
        rw [hstep, if_neg hns]
        by_cases hq : qualifies n rd
        · rw [if_pos ⟨hq, hsix⟩, if_pos hq, kingdoms_recordAt, if_pos hrd]
        · rw [if_neg (fun hc => hq hc.1), if_neg hq]
      · rw [List.find?_cons_of_neg _ (by simpa using hrd)]
        rw [List.countP_cons_of_neg _ _ (by simpa using hrd)] at hcount
        have hstep := calcStep_kingdoms_preserved n th st rd
          (hk rd (List.mem_cons_self _ _)) hrd
        have := ih (calcStep n th st rd)
          (fun rd' h => hk rd' (List.mem_cons_of_mem _ h)) hcount
        rw [hstep] at this
        exact this

/-! ### find? and countP under reversal -/

theorem find?_eq_head?_filter {α : Type} (p : α → Bool) :
    ∀ l : List α, l.find? p = (l.filter p).head? := by
  intro l
  induction l with
  | nil => rfl
  | cons a l ih =>
      by_cases hp : p a
      · rw [List.find?_cons_of_pos _ hp, List.filter_cons_of_pos hp]
        rfl
      · rw [List.find?_cons_of_neg _ (by simpa using hp),
          List.filter_cons_of_neg (by simpa using hp)]
        exact ih

theorem countP_reverse_eq {α : Type} (p : α → Bool) (l : List α) :
    l.reverse.countP p = l.countP p := by
  rw [List.countP_eq_length_filter, List.countP_eq_length_filter,
    List.filter_reverse, List.length_reverse]

theorem find?_reverse_of_countP_le_one {α : Type} (p : α → Bool) (l : List α)
    (h : l.countP p ≤ 1) : l.reverse.find? p = l.find? p := by
  rw [find?_eq_head?_filter, find?_eq_head?_filter, List.filter_reverse]
  rw [List.countP_eq_length_filter] at h
  cases hf : l.filter p with
  | nil => rfl
  | cons a t =>
      cases t with
      | nil => rfl
      | cons b t2 =>
          rw [hf] at h
          simp at h

/-! ### New-level characterization -/

/-- The bucket of rank `r` among the surviving buckets, if any. -/
def bucketFor (l : List rankData) (r : Rank) : Option rankData :=
  l.find? (fun rd => decide (rd.rank = r))

theorem fieldOf_update_main (s : Stats) (a : Taxon) (b : ℚ) (r : Rank) :
    fieldOf { s with MainTaxon := a, MainTaxonPercentage := b } r
      = fieldOf s r := by
  unfold fieldOf
  split_ifs <;> rfl

theorem pctOf_update_main (s : Stats) (a : Taxon) (b : ℚ) (r : Rank) :
    pctOf { s with MainTaxon := a, MainTaxonPercentage := b } r = pctOf s r := by
  unfold pctOf
  split_ifs <;> rfl

theorem fieldOf_initState (n : Nat) (r : Rank) :
    fieldOf (initState n).res r = zeroTaxon := by
  unfold fieldOf initState emptyStats
  split_ifs <;> rfl

theorem pctOf_initState (n : Nat) (r : Rank) :
    pctOf (initState n).res r = 0 := by
  unfold pctOf initState emptyStats
  split_ifs <;> rfl

theorem calcStats_fieldOf (n : Nat) (l : List rankData) (th : ℚ) (r : Rank)
    (hr : standardSix r) (hk : ∀ rd ∈ l, keysOk rd)
    (hcount : l.countP (fun rd => decide (rd.rank = r)) ≤ 1) :
    (fieldOf (calcStats n l th) r, pctOf (calcStats n l th) r)
    = onBucket n (bucketFor l r) (maxTaxon n) (zeroTaxon, 0) := by
  have hkr : ∀ rd ∈ l.reverse, keysOk rd :=
    fun rd hm => hk rd (List.mem_reverse.mp hm)
  have hcr : l.reverse.countP (fun rd => decide (rd.rank = r)) ≤ 1 := by
    rw [countP_reverse_eq]; exact hcount
  have hmain := foldl_field_char n th r hr l.reverse (initState n) hkr hcr
  rw [fieldOf_initState, pctOf_initState,
    find?_reverse_of_countP_le_one _ _ hcount] at hmain
  have hfld : fieldOf (calcStats n l th) r
      = fieldOf (l.reverse.foldl (calcStep n th) (initState n)).res r := by
    unfold calcStats
    exact fieldOf_update_main _ _ _ r
  have hpct : pctOf (calcStats n l th) r
      = pctOf (l.reverse.foldl (calcStep n th) (initState n)).res r := by
    unfold calcStats
    exact pctOf_update_main _ _ _ r
  rw [hfld, hpct, hmain]
  rfl

theorem calcStats_kingdoms (n : Nat) (l : List rankData) (th : ℚ)
    (hk : ∀ rd ∈ l, keysOk rd)
    (hcount : l.countP (fun rd => decide (rd.rank = Kingdom)) ≤ 1) :
    (calcStats n l th).Kingdoms
    = onBucket n (bucketFor l Kingdom) (getTaxDist n) [] := by
  have hkr : ∀ rd ∈ l.reverse, keysOk rd :=
    fun rd hm => hk rd (List.mem_reverse.mp hm)
  have hcr : l.reverse.countP (fun rd => decide (rd.rank = Kingdom)) ≤ 1 := by
    rw [countP_reverse_eq]; exact hcount
  have hmain := foldl_kingdoms_char n th l.reverse (initState n) hkr hcr
  rw [find?_reverse_of_countP_le_one _ _ hcount] at hmain
  have hfld : (calcStats n l th).Kingdoms
      = (l.reverse.foldl (calcStep n th) (initState n)).res.Kingdoms := rfl
  rw [hfld, hmain]
  rfl

theorem New_unfold (h : List Hierarchy) (t : ℚ)
    (hne : (extractTaxons h).length ≠ 1) :
    New h t = calcStats (extractTaxons h).length
      (removeEmptyRanks (populateRanks (extractTaxons h)))
      (if t < mkRat 1 2 then mkRat 1 2 else t) := by
  simp only [New]
  rw [if_neg hne]

/-- C2 (amended): for every standard rank bucket that survives pruning (with
aggregation actually running, i.e. retained count ≠ 1): if the tie-guard
`isMaxTaxon` reports exactly one distribution entry at the maximum
percentage AND the maximum-count taxon has a nonempty name, that taxon and
its percentage are recorded in the rank's Stats fields; otherwise — a tie at
the maximum, or a unique maximum whose taxon name is empty — the rank's
Taxon field is the zero Taxon and its percentage is 0. -/
theorem C2_dominant_recorded_iff_unique_max (h : List Hierarchy) (t : ℚ)
    (r : Rank) (rd : rankData) (hr : standardSix r)
    (hne : (extractTaxons h).length ≠ 1)
    (hb : bucketFor (removeEmptyRanks (populateRanks (extractTaxons h))) r
      = some rd) :
    (fieldOf (New h t) r, pctOf (New h t) r)
    = if isMaxTaxon (getTaxDist (extractTaxons h).length rd)
          (maxTaxon (extractTaxons h).length rd).2 = true ∧
        (maxTaxon (extractTaxons h).length rd).1.Name ≠ "" then
        maxTaxon (extractTaxons h).length rd
      else (zeroTaxon, 0) := by
  rw [New_unfold h t hne,
    calcStats_fieldOf _ _ _ r hr (pruned_keysOk _) (pruned_countP_le_one _ r),
    hb, onBucket_some]
  rfl

/-- C2 witness at a concrete input: one kingdom shared by two items is the
unique maximum of the Kingdom bucket and is recorded with percentage 1. -/
theorem C2_dominant_recorded_iff_unique_max_witness :
    standardSix Kingdom ∧
      (extractTaxons [⟨[⟨"k", "Animalia", "x", 15⟩, ⟨"g1", "Puma", "x", 4⟩]⟩,
        ⟨[⟨"k", "Animalia", "x", 15⟩, ⟨"g2", "Bubo", "x", 4⟩]⟩]).length ≠ 1 ∧
      bucketFor (removeEmptyRanks (populateRanks (extractTaxons
        [⟨[⟨"k", "Animalia", "x", 15⟩, ⟨"g1", "Puma", "x", 4⟩]⟩,
         ⟨[⟨"k", "Animalia", "x", 15⟩, ⟨"g2", "Bubo", "x", 4⟩]⟩]))) Kingdom
        = some ⟨15, [(⟨"k", "Animalia", "x", 15⟩, 2)], 2⟩ ∧
      (fieldOf (New [⟨[⟨"k", "Animalia", "x", 15⟩, ⟨"g1", "Puma", "x", 4⟩]⟩,
          ⟨[⟨"k", "Animalia", "x", 15⟩, ⟨"g2", "Bubo", "x", 4⟩]⟩] (mkRat 7 10))
          Kingdom,
       pctOf (New [⟨[⟨"k", "Animalia", "x", 15⟩, ⟨"g1", "Puma", "x", 4⟩]⟩,
          ⟨[⟨"k", "Animalia", "x", 15⟩, ⟨"g2", "Bubo", "x", 4⟩]⟩] (mkRat 7 10))
          Kingdom)
      = if isMaxTaxon (getTaxDist 2 ⟨15, [(⟨"k", "Animalia", "x", 15⟩, 2)], 2⟩)
            (maxTaxon 2 ⟨15, [(⟨"k", "Animalia", "x", 15⟩, 2)], 2⟩).2 = true ∧
          (maxTaxon 2 ⟨15, [(⟨"k", "Animalia", "x", 15⟩, 2)], 2⟩).1.Name ≠ "" then
          maxTaxon 2 ⟨15, [(⟨"k", "Animalia", "x", 15⟩, 2)], 2⟩
        else (zeroTaxon, 0) :=
  ⟨by decide, by decide, by decide,
   C2_dominant_recorded_iff_unique_max
     [⟨[⟨"k", "Animalia", "x", 15⟩, ⟨"g1", "Puma", "x", 4⟩]⟩,
      ⟨[⟨"k", "Animalia", "x", 15⟩, ⟨"g2", "Bubo", "x", 4⟩]⟩] (mkRat 7 10)
     Kingdom ⟨15, [(⟨"k", "Animalia", "x", 15⟩, 2)], 2⟩
     (Or.inl rfl) (by decide) (by decide)⟩

/-- C2 counterexample: a genus-level taxon with an empty name is the unique
maximum of its surviving bucket (exactly one distribution entry attains the
maximum percentage), yet it is not recorded: the Genus field stays at the
zero Taxon with percentage 0, contradicting the claim as stated. -/
theorem C2_empty_name_counterexample :
    bucketFor (removeEmptyRanks (populateRanks (extractTaxons
        [⟨[⟨"a", "", "x", 4⟩]⟩, ⟨[⟨"a", "", "x", 4⟩]⟩]))) Genus
      = some ⟨4, [(⟨"a", "", "x", 4⟩, 2)], 2⟩ ∧
    (getTaxDist 2 ⟨4, [(⟨"a", "", "x", 4⟩, 2)], 2⟩).countP
        (fun dv => decide (dv.Percentage = mkRat 2 2)) = 1 ∧
    ¬ ((New [⟨[⟨"a", "", "x", 4⟩]⟩, ⟨[⟨"a", "", "x", 4⟩]⟩]
          (mkRat 7 10)).Genus = ⟨"a", "", "x", 4⟩ ∧
       (New [⟨[⟨"a", "", "x", 4⟩]⟩, ⟨[⟨"a", "", "x", 4⟩]⟩]
          (mkRat 7 10)).GenusPercentage = mkRat 2 2) ∧
    (New [⟨[⟨"a", "", "x", 4⟩]⟩, ⟨[⟨"a", "", "x", 4⟩]⟩]
        (mkRat 7 10)).Genus = zeroTaxon ∧
    (New [⟨[⟨"a", "", "x", 4⟩]⟩, ⟨[⟨"a", "", "x", 4⟩]⟩]
        (mkRat 7 10)).GenusPercentage = 0 := by
  decide

/-- C8 (amended): when the Kingdom bucket survives pruning (and aggregation
runs), the `Kingdoms` distribution is populated exactly when the kingdom
maximum is unique and carries a nonempty name, in which case it is the full
Kingdom-level distribution (`getTaxDist`, one entry per distinct kingdom
key); otherwise it stays empty. No other rank's distribution ever reaches
the result. -/
theorem C8_kingdoms_distribution (h : List Hierarchy) (t : ℚ) (rd : rankData)
    (hne : (extractTaxons h).length ≠ 1)
    (hb : bucketFor (removeEmptyRanks (populateRanks (extractTaxons h)))
      Kingdom = some rd) :
    (New h t).Kingdoms
    = if isMaxTaxon (getTaxDist (extractTaxons h).length rd)
          (maxTaxon (extractTaxons h).length rd).2 = true ∧
        (maxTaxon (extractTaxons h).length rd).1.Name ≠ "" then
        getTaxDist (extractTaxons h).length rd
      else [] := by
  rw [New_unfold h t hne,
    calcStats_kingdoms _ _ _ (pruned_keysOk _) (pruned_countP_le_one _ Kingdom),
    hb, onBucket_some]
  rfl

/-- C8 witness at a concrete input with a unique dominant kingdom. -/
theorem C8_kingdoms_distribution_witness :
    (extractTaxons [⟨[⟨"k", "Animalia", "x", 15⟩, ⟨"g1", "Puma", "x", 4⟩]⟩,
      ⟨[⟨"k", "Animalia", "x", 15⟩, ⟨"g2", "Bubo", "x", 4⟩]⟩]).length ≠ 1 ∧
    bucketFor (removeEmptyRanks (populateRanks (extractTaxons
        [⟨[⟨"k", "Animalia", "x", 15⟩, ⟨"g1", "Puma", "x", 4⟩]⟩,
         ⟨[⟨"k", "Animalia", "x", 15⟩, ⟨"g2", "Bubo", "x", 4⟩]⟩]))) Kingdom
      = some ⟨15, [(⟨"k", "Animalia", "x", 15⟩, 2)], 2⟩ ∧
    (New [⟨[⟨"k", "Animalia", "x", 15⟩, ⟨"g1", "Puma", "x", 4⟩]⟩,
        ⟨[⟨"k", "Animalia", "x", 15⟩, ⟨"g2", "Bubo", "x", 4⟩]⟩]
        (mkRat 7 10)).Kingdoms
    = if isMaxTaxon (getTaxDist 2 ⟨15, [(⟨"k", "Animalia", "x", 15⟩, 2)], 2⟩)
          (maxTaxon 2 ⟨15, [(⟨"k", "Animalia", "x", 15⟩, 2)], 2⟩).2 = true ∧
        (maxTaxon 2 ⟨15, [(⟨"k", "Animalia", "x", 15⟩, 2)], 2⟩).1.Name ≠ "" then
        getTaxDist 2 ⟨15, [(⟨"k", "Animalia", "x", 15⟩, 2)], 2⟩
      else [] :=
  ⟨by decide, by decide,
   C8_kingdoms_distribution
     [⟨[⟨"k", "Animalia", "x", 15⟩, ⟨"g1", "Puma", "x", 4⟩]⟩,
      ⟨[⟨"k", "Animalia", "x", 15⟩, ⟨"g2", "Bubo", "x", 4⟩]⟩] (mkRat 7 10)
     ⟨15, [(⟨"k", "Animalia", "x", 15⟩, 2)], 2⟩ (by decide) (by decide)⟩

/-- C8 counterexample: with two kingdoms tied 50/50 the Kingdom bucket
survives pruning (total 2, full distribution has two entries), yet the
returned `Kingdoms` list is empty — surviving the pruning alone does not
populate the distribution, contradicting the claim as stated. -/
theorem C8_tie_counterexample :
    bucketFor (removeEmptyRanks (populateRanks (extractTaxons
        [⟨[⟨"p", "Plantae", "x", 15⟩, ⟨"pp", "Potentilla", "x", 4⟩]⟩,
         ⟨[⟨"n", "Animalia", "x", 15⟩, ⟨"pu", "Puma", "x", 4⟩]⟩]))) Kingdom
      = some ⟨15, [(⟨"p", "Plantae", "x", 15⟩, 1),
          (⟨"n", "Animalia", "x", 15⟩, 1)], 2⟩ ∧
    (getTaxDist 2 ⟨15, [(⟨"p", "Plantae", "x", 15⟩, 1),
        (⟨"n", "Animalia", "x", 15⟩, 1)], 2⟩).length = 2 ∧
    (New [⟨[⟨"p", "Plantae", "x", 15⟩, ⟨"pp", "Potentilla", "x", 4⟩]⟩,
        ⟨[⟨"n", "Animalia", "x", 15⟩, ⟨"pu", "Puma", "x", 4⟩]⟩]
        (mkRat 7 10)).Kingdoms = [] := by
  decide

/-! ### Aggregation-key identity -/

/-- Occurrence count stored for key `t` in a bucket's map (0 when absent);
keys are compared by full structural equality, as Go map keys are. -/
def occOf (l : List (Taxon × Nat)) (t : Taxon) : Nat :=
  match l.find? (fun kv => decide (kv.1 = t)) with
  | none => 0
  | some kv => kv.2

theorem occOf_bump_self (l : List (Taxon × Nat)) (t : Taxon) :
    occOf (bump l t) t = occOf l t + 1 := by
  induction l with
  | nil => simp [bump, occOf]
  | cons p rest ih =>
      obtain ⟨k, v⟩ := p
      rw [bump]
      by_cases hkt : k = t
      · rw [if_pos hkt]
        simp [occOf, hkt]
      · rw [if_neg hkt]
        simp only [occOf, List.find?] at ih ⊢
        simp only [hkt, decide_eq_true_eq, if_false, decide_False]
        exact ih

theorem occOf_bump_other (l : List (Taxon × Nat)) (t t' : Taxon)
    (hne : t' ≠ t) : occOf (bump l t) t' = occOf l t' := by
  induction l with
  | nil =>
      simp only [bump, occOf, List.find?]
      rw [decide_eq_false (fun h : t = t' => hne h.symm)]
  | cons p rest ih =>
      obtain ⟨k, v⟩ := p
      rw [bump]
      by_cases hkt : k = t
      · rw [if_pos hkt]
        have hk' : ¬ k = t' := fun hc => hne (hc ▸ hkt.symm ▸ rfl)
        simp [occOf, hk', List.find?]
      · rw [if_neg hkt]
        by_cases hk' : k = t'
        · simp [occOf, hk', List.find?]
        · simp only [occOf, List.find?] at ih ⊢
          simp only [hk', decide_eq_true_eq, if_false, decide_False]
          exact ih

/-- C5 (amended): the aggregation key of the occurrence map is the entire
Taxon value (Go map key equality on all four fields): tallying a taxon
increments exactly the count of the key structurally equal to it, and every
taxon differing in any field — including in ID alone — keeps its own
separate count. -/
theorem C5_aggregation_key_is_full_taxon (l : List (Taxon × Nat))
    (t t' : Taxon) :
    occOf (bump l t) t = occOf l t + 1 ∧
      (t' ≠ t → occOf (bump l t) t' = occOf l t') :=
  ⟨occOf_bump_self l t, fun hne => occOf_bump_other l t t' hne⟩

/-- C5 witness at concrete map entries. -/
theorem C5_aggregation_key_is_full_taxon_witness :
    occOf (bump [(⟨"id1", "Puma", "x", 4⟩, 3)] ⟨"id2", "Puma", "x", 4⟩)
        ⟨"id2", "Puma", "x", 4⟩
      = occOf [(⟨"id1", "Puma", "x", 4⟩, 3)] ⟨"id2", "Puma", "x", 4⟩ + 1 ∧
    ((⟨"id1", "Puma", "x", 4⟩ : Taxon) ≠ ⟨"id2", "Puma", "x", 4⟩ ∧
      occOf (bump [(⟨"id1", "Puma", "x", 4⟩, 3)] ⟨"id2", "Puma", "x", 4⟩)
          ⟨"id1", "Puma", "x", 4⟩
        = occOf [(⟨"id1", "Puma", "x", 4⟩, 3)] ⟨"id1", "Puma", "x", 4⟩) :=
  ⟨(C5_aggregation_key_is_full_taxon [(⟨"id1", "Puma", "x", 4⟩, 3)]
      ⟨"id2", "Puma", "x", 4⟩ ⟨"id1", "Puma", "x", 4⟩).1,
   by decide,
   (C5_aggregation_key_is_full_taxon [(⟨"id1", "Puma", "x", 4⟩, 3)]
      ⟨"id2", "Puma", "x", 4⟩ ⟨"id1", "Puma", "x", 4⟩).2 (by decide)⟩

/-- C5 counterexample: two taxa equal in Name and Rank but with different
IDs are aggregated under two distinct keys with one count each, not under
one shared key — ID is part of the aggregation identity. -/
theorem C5_id_matters_counterexample :
    (⟨"id1", "Puma", "x", 4⟩ : Taxon).Name
      = (⟨"id2", "Puma", "x", 4⟩ : Taxon).Name ∧
    (⟨"id1", "Puma", "x", 4⟩ : Taxon).Rank
      = (⟨"id2", "Puma", "x", 4⟩ : Taxon).Rank ∧
    (⟨"id1", "Puma", "x", 4⟩ : Taxon) ≠ ⟨"id2", "Puma", "x", 4⟩ ∧
    bucketFor (populateRanks
        [[⟨"id1", "Puma", "x", 4⟩], [⟨"id2", "Puma", "x", 4⟩]]) Genus
      = some ⟨4, [(⟨"id1", "Puma", "x", 4⟩, 1),
          (⟨"id2", "Puma", "x", 4⟩, 1)], 2⟩ ∧
    occOf [(⟨"id1", "Puma", "x", 4⟩, 1), (⟨"id2", "Puma", "x", 4⟩, 1)]
        ⟨"id1", "Puma", "x", 4⟩ = 1 ∧
    occOf [(⟨"id1", "Puma", "x", 4⟩, 1), (⟨"id2", "Puma", "x", 4⟩, 1)]
        ⟨"id2", "Puma", "x", 4⟩ = 1 := by
  decide

/-! ### Occurrence-count bounds for the aggregation -/

/-- The keys of a bucket's map are pairwise distinct (a Go map invariant). -/
def keysND (l : List (Taxon × Nat)) : Prop :=
  (l.map Prod.fst).Nodup

theorem keysND_bump (l : List (Taxon × Nat)) (t : Taxon) (h : keysND l) :
    keysND (bump l t) := by
  induction l with
  | nil => simp [bump, keysND]
  | cons p rest ih =>
      obtain ⟨k, v⟩ := p
      unfold keysND at h ⊢
      rw [List.map_cons, List.nodup_cons] at h
      rw [bump]
      by_cases hkt : k = t
      · rw [if_pos hkt]
        rw [List.map_cons, List.nodup_cons]
        exact h
      · rw [if_neg hkt]
        rw [List.map_cons, List.nodup_cons]
        constructor
        · intro hc
          rcases List.mem_map.mp hc with ⟨kv, hkv, hfst⟩
          rcases bump_mem rest t kv hkv with hm | hkey
          · exact h.1 (hfst ▸ List.mem_map_of_mem Prod.fst hm)
          · exact hkt (hfst.symm.trans hkey)
        · exact ih h.2

theorem occOf_of_mem (l : List (Taxon × Nat)) (hnd : keysND l) :
    ∀ kv ∈ l, occOf l kv.1 = kv.2 := by
  induction l with
  | nil => intro kv hkv; cases hkv
  | cons p rest ih =>
      intro kv hkv
      unfold keysND at hnd
      rw [List.map_cons, List.nodup_cons] at hnd
      rcases List.mem_cons.mp hkv with h | h
      · subst h
        simp [occOf, List.find?]
      · have hne : p.1 ≠ kv.1 := by
          intro hc
          exact hnd.1 (hc ▸ List.mem_map_of_mem Prod.fst h)
        have : occOf (p :: rest) kv.1 = occOf rest kv.1 := by
          simp only [occOf, List.find?]
          rw [decide_eq_false hne]
        rw [this]
        exact ih hnd.2 kv h

theorem foldl_addTaxon_eq_map (cs : List Taxon) :
    ∀ ranks : List rankData,
      cs.foldl addTaxon ranks = ranks.map (fun rd => cs.foldl bucketUpd rd) := by
  induction cs with
  | nil => intro ranks; simp
  | cons c cs ih =>
      intro ranks
      rw [List.foldl_cons, ih (addTaxon ranks c)]
      unfold addTaxon
      rw [List.map_map]
      rfl

theorem populateRanks_eq_map (taxons : List (List Taxon)) :
    populateRanks taxons
    = ranksData.map
        (fun rd => taxons.foldl (fun rd cs => cs.foldl bucketUpd rd) rd) := by
  unfold populateRanks
  suffices hgen : ∀ acc : List rankData,
      taxons.foldl (fun acc cs => cs.foldl addTaxon acc) acc
        = acc.map (fun rd => taxons.foldl (fun rd cs => cs.foldl bucketUpd rd) rd) by
    exact hgen ranksData
  induction taxons with
  | nil => intro acc; simp
  | cons cs taxons ih =>
      intro acc
      rw [List.foldl_cons, ih (cs.foldl addTaxon acc), foldl_addTaxon_eq_map,
        List.map_map]
      rfl

theorem occOf_bucketUpd (rd : rankData) (c t : Taxon) :
    occOf (bucketUpd rd c).data t
    = occOf rd.data t + (if rd.rank = c.Rank ∧ t = c then 1 else 0) := by
  unfold bucketUpd
  by_cases hr : rd.rank = c.Rank
  · rw [if_pos hr]
    by_cases htc : t = c
    · subst htc
      rw [if_pos ⟨hr, rfl⟩]
      exact occOf_bump_self rd.data t
    · rw [if_neg (fun hc => htc hc.2)]
      exact occOf_bump_other rd.data c t htc
  · rw [if_neg hr, if_neg (fun hc => hr hc.1), Nat.add_zero]

theorem keysND_bucketUpd (rd : rankData) (c : Taxon) (h : keysND rd.data) :
    keysND (bucketUpd rd c).data := by
  unfold bucketUpd
  split_ifs
  · exact keysND_bump rd.data c h
  · exact h

theorem bucketFold_rank (cs : List Taxon) :
    ∀ rd : rankData, (cs.foldl bucketUpd rd).rank = rd.rank := by
  induction cs with
  | nil => intro rd; rfl
  | cons c cs ih =>
      intro rd
      rw [List.foldl_cons, ih (bucketUpd rd c), bucketUpd_rank]

theorem keysND_bucketFold (cs : List Taxon) :
    ∀ rd : rankData, keysND rd.data → keysND (cs.foldl bucketUpd rd).data := by
  induction cs with
  | nil => intro rd h; exact h
  | cons c cs ih =>
      intro rd h
      rw [List.foldl_cons]
      exact ih (bucketUpd rd c) (keysND_bucketUpd rd c h)

theorem occOf_bucketFold (cs : List Taxon) :
    ∀ (rd : rankData) (t : Taxon),
      occOf (cs.foldl bucketUpd rd).data t
      = occOf rd.data t
        + cs.countP (fun u => decide (rd.rank = u.Rank ∧ t = u)) := by
  induction cs with
  | nil => intro rd t; simp
  | cons c cs ih =>
      intro rd t
      rw [List.foldl_cons, ih (bucketUpd rd c) t]
      have hrk : (bucketUpd rd c).rank = rd.rank := bucketUpd_rank rd c
      rw [hrk, occOf_bucketUpd, List.countP_cons]
      by_cases hc : rd.rank = c.Rank ∧ t = c <;> simp [hc] <;> omega

theorem pairwise_countP_le_one (cs : List Taxon) (rk : Rank) (t : Taxon)
    (hpw : cs.Pairwise (fun a b => a.Rank ≠ b.Rank)) :
    cs.countP (fun u => decide (rk = u.Rank ∧ t = u)) ≤ 1 := by
  induction cs with
  | nil => simp
  | cons c cs ih =>
      rw [List.pairwise_cons] at hpw
      rw [List.countP_cons]
      by_cases hc : rk = c.Rank ∧ t = c
      · have hzero : cs.countP (fun u => decide (rk = u.Rank ∧ t = u)) = 0 := by
          rw [List.countP_eq_zero]
          intro u hu
          simp only [decide_eq_true_eq]
          intro hcu
          exact absurd (hc.1.symm.trans hcu.1) (hpw.1 u hu)
        rw [hzero]
        have hct : (fun u => decide (rk = u.Rank ∧ t = u)) c = true := by
          simpa using hc
        rw [if_pos hct]
      · simp only [hc, decide_False, if_false, Nat.add_zero]
        exact ih hpw.2

theorem occOf_itemsFold_le (taxons : List (List Taxon)) :
    ∀ (rd : rankData) (t : Taxon),
      (∀ ts ∈ taxons, ts.Pairwise (fun a b => a.Rank ≠ b.Rank)) →
      occOf ((taxons.foldl (fun rd cs => cs.foldl bucketUpd rd) rd)).data t
        ≤ occOf rd.data t + taxons.length := by
  induction taxons with
  | nil => intro rd t _; simp
  | cons cs taxons ih =>
      intro rd t hpw
      rw [List.foldl_cons]
      have h1 := ih (cs.foldl bucketUpd rd) t
        (fun ts hts => hpw ts (List.mem_cons_of_mem _ hts))
      have h2 := occOf_bucketFold cs rd t
      have h3 := pairwise_countP_le_one cs rd.rank t
        (hpw cs (List.mem_cons_self _ _))
      rw [List.length_cons]
      omega

theorem keysND_itemsFold (taxons : List (List Taxon)) :
    ∀ rd : rankData, keysND rd.data →
      keysND ((taxons.foldl (fun rd cs => cs.foldl bucketUpd rd) rd)).data := by
  induction taxons with
  | nil => intro rd h; exact h
  | cons cs taxons ih =>
      intro rd h
      rw [List.foldl_cons]
      exact ih (cs.foldl bucketUpd rd) (keysND_bucketFold cs rd h)

theorem populate_entry_le (taxons : List (List Taxon))
    (hpw : ∀ ts ∈ taxons, ts.Pairwise (fun a b => a.Rank ≠ b.Rank)) :
    ∀ rd ∈ populateRanks taxons, ∀ kv ∈ rd.data, kv.2 ≤ taxons.length := by
  intro rd hrd kv hkv
  rw [populateRanks_eq_map] at hrd
  rcases List.mem_map.mp hrd with ⟨rd0, hrd0, hEq⟩
  have hnd0 : keysND rd0.data := by
    rcases List.mem_map.mp hrd0 with ⟨i, _, hEq0⟩
    rw [← hEq0]
    simp [keysND]
  have hnd : keysND rd.data := hEq ▸ keysND_itemsFold taxons rd0 hnd0
  have hocc : occOf rd.data kv.1 = kv.2 := occOf_of_mem rd.data hnd kv hkv
  have hzero : occOf rd0.data kv.1 = 0 := by
    rcases List.mem_map.mp hrd0 with ⟨i, _, hEq0⟩
    rw [← hEq0]
    rfl
  have hle := occOf_itemsFold_le taxons rd0 kv.1 hpw
  rw [hEq, hocc, hzero] at hle
  omega

/-! ### Percentage bounds -/

theorem mkRat_nat_eq_div (m n : Nat) : mkRat m n = (m : ℚ) / (n : ℚ) := by
  rw [Rat.mkRat_eq_div]
  simp

/-- A percentage lies in the unit interval. -/
def pctIn01 (q : ℚ) : Prop := 0 ≤ q ∧ q ≤ 1

instance (q : ℚ) : Decidable (pctIn01 q) := by
  unfold pctIn01; infer_instance

theorem pctIn01_mkRat (m n : Nat) (h : m ≤ n) : pctIn01 (mkRat m n) := by
  rw [mkRat_nat_eq_div]
  constructor
  · positivity
  · rcases Nat.eq_zero_or_pos n with h0 | hpos
    · subst h0; simp
    · rw [div_le_one (by exact_mod_cast hpos)]
      exact_mod_cast h

theorem pctIn01_zero : pctIn01 0 := by
  constructor <;> norm_num

/-- Every percentage field of a Stats value lies in `[0,1]`, including those
of the Kingdoms distribution entries. -/
def statsPctsOk (s : Stats) : Prop :=
  pctIn01 s.KingdomPercentage ∧ pctIn01 s.PhylumPercentage ∧
  pctIn01 s.ClassPercentage ∧ pctIn01 s.OrderPercentage ∧
  pctIn01 s.FamilyPercentage ∧ pctIn01 s.GenusPercentage ∧
  pctIn01 s.MainTaxonPercentage ∧
  ∀ dv ∈ s.Kingdoms, pctIn01 dv.Percentage

instance (s : Stats) : Decidable (statsPctsOk s) := by
  unfold statsPctsOk; infer_instance

theorem statsPctsOk_recordAt (s : Stats) (r : Rank) (tx : Taxon) (p : ℚ)
    (d : List TaxonDist) (hs : statsPctsOk s) (hp : pctIn01 p)
    (hd : ∀ dv ∈ d, pctIn01 dv.Percentage) :
    statsPctsOk (recordAt s r tx p d) := by
  obtain ⟨h1, h2, h3, h4, h5, h6, h7, h8⟩ := hs
  unfold recordAt
  split_ifs
  · exact ⟨hp, h2, h3, h4, h5, h6, h7, hd⟩
  · exact ⟨h1, hp, h3, h4, h5, h6, h7, h8⟩
  · exact ⟨h1, h2, hp, h4, h5, h6, h7, h8⟩
  · exact ⟨h1, h2, h3, hp, h5, h6, h7, h8⟩
  · exact ⟨h1, h2, h3, h4, hp, h6, h7, h8⟩
  · exact ⟨h1, h2, h3, h4, h5, hp, h7, h8⟩
  · exact ⟨h1, h2, h3, h4, h5, h6, h7, h8⟩

theorem maxTaxon_snd_pctIn01 (n : Nat) (rd : rankData)
    (hb : ∀ kv ∈ rd.data, kv.2 ≤ n) : pctIn01 (maxTaxon n rd).2 := by
  rw [maxTaxon_snd]
  rcases maxFold_cases rd.data with h | ⟨kv, hm, h⟩ <;> rw [h]
  · exact pctIn01_mkRat 0 n (Nat.zero_le n)
  · exact pctIn01_mkRat kv.2 n (hb kv hm)

theorem getTaxDist_pctIn01 (n : Nat) (rd : rankData)
    (hb : ∀ kv ∈ rd.data, kv.2 ≤ n) :
    ∀ dv ∈ getTaxDist n rd, pctIn01 dv.Percentage := by
  intro dv hdv
  unfold getTaxDist at hdv
  rcases List.mem_map.mp hdv with ⟨kv, hkv, hEq⟩
  rw [← hEq]
  exact pctIn01_mkRat kv.2 n (hb kv hkv)

/-- Invariant carried through the loop of `calcStats`. -/
def stateOk (st : CalcState) : Prop :=
  statsPctsOk st.res ∧ pctIn01 st.txnPCent

theorem calcStep_stateOk (n : Nat) (th : ℚ) (st : CalcState) (rd : rankData)
    (hk : keysOk rd) (hb : ∀ kv ∈ rd.data, kv.2 ≤ n) (hst : stateOk st) :
    stateOk (calcStep n th st rd) := by
  constructor
  · rw [calcStep_res_eq n th st rd hk]
    split_ifs
    · exact hst.1
    · exact statsPctsOk_recordAt st.res rd.rank (maxTaxon n rd).1
        (maxTaxon n rd).2 (getTaxDist n rd) hst.1
        (maxTaxon_snd_pctIn01 n rd hb) (getTaxDist_pctIn01 n rd hb)
    · exact hst.1
  · rcases calcStep_main_fields n th st rd with ⟨_, hp, _⟩ | ⟨_, _, _, _, hp, _⟩
    · rw [hp]; exact hst.2
    · rw [hp]; exact maxTaxon_snd_pctIn01 n rd hb

theorem foldl_stateOk (n : Nat) (th : ℚ) :
    ∀ (l : List rankData) (st : CalcState), (∀ rd ∈ l, keysOk rd) →
      (∀ rd ∈ l, ∀ kv ∈ rd.data, kv.2 ≤ n) → stateOk st →
      stateOk (l.foldl (calcStep n th) st) := by
  intro l
  induction l with
  | nil => intro st _ _ h; exact h
  | cons rd l ih =>
      intro st hk hb hst
      rw [List.foldl_cons]
      exact ih (calcStep n th st rd)
        (fun rd' h => hk rd' (List.mem_cons_of_mem _ h))
        (fun rd' h => hb rd' (List.mem_cons_of_mem _ h))
        (calcStep_stateOk n th st rd (hk rd (List.mem_cons_self _ _))
          (hb rd (List.mem_cons_self _ _)) hst)

theorem statsPctsOk_emptyStats : statsPctsOk emptyStats := by
  refine ⟨pctIn01_zero, pctIn01_zero, pctIn01_zero, pctIn01_zero, pctIn01_zero,
    pctIn01_zero, pctIn01_zero, ?_⟩
  intro dv hdv
  cases hdv

theorem stateOk_initState (n : Nat) : stateOk (initState n) := by
  constructor
  · refine ⟨pctIn01_zero, pctIn01_zero, pctIn01_zero, pctIn01_zero,
      pctIn01_zero, pctIn01_zero, pctIn01_zero, ?_⟩
    intro dv hdv
    cases hdv
  · exact pctIn01_zero

theorem statsPctsOk_calcStats (n : Nat) (l : List rankData) (th : ℚ)
    (hk : ∀ rd ∈ l, keysOk rd)
    (hb : ∀ rd ∈ l, ∀ kv ∈ rd.data, kv.2 ≤ n) :
    statsPctsOk (calcStats n l th) := by
  have hkr : ∀ rd ∈ l.reverse, keysOk rd :=
    fun rd hm => hk rd (List.mem_reverse.mp hm)
  have hbr : ∀ rd ∈ l.reverse, ∀ kv ∈ rd.data, kv.2 ≤ n :=
    fun rd hm => hb rd (List.mem_reverse.mp hm)
  have hfin := foldl_stateOk n th l.reverse (initState n) hkr hbr
    (stateOk_initState n)
  obtain ⟨⟨h1, h2, h3, h4, h5, h6, _, h8⟩, hpc⟩ := hfin
  exact ⟨h1, h2, h3, h4, h5, h6, hpc, h8⟩

theorem fieldOf_emptyStats (r : Rank) : fieldOf emptyStats r = zeroTaxon := by
  unfold fieldOf emptyStats
  split_ifs <;> rfl

theorem pctOf_emptyStats (r : Rank) : pctOf emptyStats r = 0 := by
  unfold pctOf emptyStats
  split_ifs <;> rfl

/-- C7 (amended): for every input whose retained items each carry at most
one taxon per rank (pairwise-distinct ranks within an item — the shape the
percentage semantics presupposes), every percentage field of the result,
including the Kingdoms distribution entries, lies in `[0,1]`; and whenever a
standard rank has no dominant taxon — its bucket is absent after pruning, or
the tie-guard `isMaxTaxon` fails on it — the rank's Taxon field is the zero
Taxon and its percentage is 0. -/
theorem C7_percentages_in_unit_interval (h : List Hierarchy) (t : ℚ)
    (hpw : ∀ ts ∈ extractTaxons h, ts.Pairwise (fun a b => a.Rank ≠ b.Rank)) :
    statsPctsOk (New h t) ∧
    (∀ r, standardSix r →
      bucketFor (removeEmptyRanks (populateRanks (extractTaxons h))) r = none →
      fieldOf (New h t) r = zeroTaxon ∧ pctOf (New h t) r = 0) ∧
    (∀ r rd, standardSix r →
      bucketFor (removeEmptyRanks (populateRanks (extractTaxons h))) r
        = some rd →
      isMaxTaxon (getTaxDist (extractTaxons h).length rd)
        (maxTaxon (extractTaxons h).length rd).2 = false →
      fieldOf (New h t) r = zeroTaxon ∧ pctOf (New h t) r = 0) := by
  by_cases hne : (extractTaxons h).length = 1
  · have hempty : New h t = emptyStats := by
      unfold New
      simp [hne]
    rw [hempty]
    refine ⟨statsPctsOk_emptyStats, ?_, ?_⟩
    · intro r _ _
      exact ⟨fieldOf_emptyStats r, pctOf_emptyStats r⟩
    · intro r rd _ _ _
      exact ⟨fieldOf_emptyStats r, pctOf_emptyStats r⟩
  · rw [New_unfold h t hne]
    have hks := pruned_keysOk (extractTaxons h)
    have hb : ∀ rd ∈ removeEmptyRanks (populateRanks (extractTaxons h)),
        ∀ kv ∈ rd.data, kv.2 ≤ (extractTaxons h).length := by
      intro rd hrd kv hkv
      exact populate_entry_le (extractTaxons h) hpw rd
        ((removeEmptyRanks_sublist _).mem hrd) kv hkv
    refine ⟨statsPctsOk_calcStats _ _ _ hks hb, ?_, ?_⟩
    · intro r hr hnone
      have hchar := calcStats_fieldOf (extractTaxons h).length
        (removeEmptyRanks (populateRanks (extractTaxons h)))
        (if t < mkRat 1 2 then mkRat 1 2 else t) r hr hks
        (pruned_countP_le_one _ r)
      rw [hnone, onBucket_none] at hchar
      exact ⟨congrArg Prod.fst hchar, congrArg Prod.snd hchar⟩
    · intro r rd hr hsome him
      have hchar := calcStats_fieldOf (extractTaxons h).length
        (removeEmptyRanks (populateRanks (extractTaxons h)))
        (if t < mkRat 1 2 then mkRat 1 2 else t) r hr hks
        (pruned_countP_le_one _ r)
      rw [hsome, onBucket_some,
        if_neg (fun hq : qualifies _ rd => by rw [hq.1] at him; cases him)]
        at hchar
      exact ⟨congrArg Prod.fst hchar, congrArg Prod.snd hchar⟩

/-- C7 witness at a concrete input with one kingdom and two genera. -/
theorem C7_percentages_in_unit_interval_witness :
    (∀ ts ∈ extractTaxons
        [⟨[⟨"k", "Animalia", "x", 15⟩, ⟨"g1", "Puma", "x", 4⟩]⟩,
         ⟨[⟨"k", "Animalia", "x", 15⟩, ⟨"g2", "Bubo", "x", 4⟩]⟩],
      ts.Pairwise (fun a b => a.Rank ≠ b.Rank)) ∧
    statsPctsOk (New
      [⟨[⟨"k", "Animalia", "x", 15⟩, ⟨"g1", "Puma", "x", 4⟩]⟩,
       ⟨[⟨"k", "Animalia", "x", 15⟩, ⟨"g2", "Bubo", "x", 4⟩]⟩] (mkRat 7 10)) :=
  ⟨by decide,
   (C7_percentages_in_unit_interval
     [⟨[⟨"k", "Animalia", "x", 15⟩, ⟨"g1", "Puma", "x", 4⟩]⟩,
      ⟨[⟨"k", "Animalia", "x", 15⟩, ⟨"g2", "Bubo", "x", 4⟩]⟩] (mkRat 7 10)
     (by decide)).1⟩

/-- C7 counterexample: an item listing its kingdom twice drives the
recorded KingdomPercentage (and MainTaxonPercentage) to 2, outside `[0,1]`,
so the claim fails without a per-item at-most-one-taxon-per-rank premise. -/
theorem C7_duplicate_rank_counterexample :
    (New [⟨[⟨"k", "K", "x", 15⟩, ⟨"k", "K", "x", 15⟩, ⟨"g1", "G1", "x", 4⟩]⟩,
        ⟨[⟨"k", "K", "x", 15⟩, ⟨"k", "K", "x", 15⟩, ⟨"g2", "G2", "x", 4⟩]⟩]
        (mkRat 7 10)).KingdomPercentage = mkRat 4 2 ∧
    ¬ ((New [⟨[⟨"k", "K", "x", 15⟩, ⟨"k", "K", "x", 15⟩, ⟨"g1", "G1", "x", 4⟩]⟩,
        ⟨[⟨"k", "K", "x", 15⟩, ⟨"k", "K", "x", 15⟩, ⟨"g2", "G2", "x", 4⟩]⟩]
        (mkRat 7 10)).KingdomPercentage ≤ 1) := by
  decide

/-! ### Enumeration-order dependence of the aggregation maps -/

/-- The maximum occurrence count held in a bucket's map. -/
def maxCount (l : List (Taxon × Nat)) : Nat := (l.map Prod.snd).foldl max 0

theorem maxFold_fst_eq_maxCount (l : List (Taxon × Nat)) :
    (maxFold l).1 = maxCount l := by
  unfold maxFold maxCount
  suffices hgen : ∀ acc : Nat × Taxon,
      (l.foldl
        (fun (acc : Nat × Taxon) kv => if kv.2 > acc.1 then (kv.2, kv.1) else acc)
        acc).1
      = (l.map Prod.snd).foldl max acc.1 by
    exact hgen (0, zeroTaxon)
  induction l with
  | nil => intro acc; rfl
  | cons kv l ih =>
      intro acc
      rw [List.foldl_cons, List.map_cons, List.foldl_cons, ih]
      congr 1
      by_cases hgt : kv.2 > acc.1
      · rw [if_pos hgt]
        exact (Nat.max_eq_right (Nat.le_of_lt hgt)).symm
      · rw [if_neg hgt]
        exact (Nat.max_eq_left (Nat.le_of_not_lt hgt)).symm

theorem maxCount_perm {l l' : List (Taxon × Nat)} (hp : l.Perm l') :
    maxCount l = maxCount l' := by
  unfold maxCount
  exact (hp.map Prod.snd).foldl_eq' (fun x _ y _ z => by omega) 0

theorem maxFold_of_all_le (l : List (Taxon × Nat)) :
    ∀ acc : Nat × Taxon, (∀ kv ∈ l, kv.2 ≤ acc.1) →
      l.foldl
        (fun (acc : Nat × Taxon) kv => if kv.2 > acc.1 then (kv.2, kv.1) else acc)
        acc = acc := by
  induction l with
  | nil => intro acc _; rfl
  | cons kv l ih =>
      intro acc hle
      rw [List.foldl_cons,
        if_neg (Nat.not_lt.mpr (hle kv (List.mem_cons_self _ _)))]
      exact ih acc (fun kv' h => hle kv' (List.mem_cons_of_mem _ h))

theorem init_le_foldl_max (xs : List Nat) :
    ∀ a : Nat, a ≤ xs.foldl max a := by
  induction xs with
  | nil => intro a; exact Nat.le_refl a
  | cons x xs ih =>
      intro a
      rw [List.foldl_cons]
      exact Nat.le_trans (Nat.le_max_left a x) (ih (max a x))

theorem mem_le_foldl_max (xs : List Nat) :
    ∀ (a x : Nat), x ∈ xs → x ≤ xs.foldl max a := by
  induction xs with
  | nil => intro a x hx; cases hx
  | cons y xs ih =>
      intro a x hx
      rw [List.foldl_cons]
      rcases List.mem_cons.mp hx with h | h
      · subst h
        exact Nat.le_trans (Nat.le_max_right a x) (init_le_foldl_max xs (max a x))
      · exact ih (max a y) x h

theorem le_maxCount (l : List (Taxon × Nat)) (kv : Taxon × Nat) (h : kv ∈ l) :
    kv.2 ≤ maxCount l :=
  mem_le_foldl_max (l.map Prod.snd) 0 kv.2 (List.mem_map_of_mem Prod.snd h)

theorem maxFold_of_maxCount_zero (l : List (Taxon × Nat))
    (h : maxCount l = 0) : maxFold l = (0, zeroTaxon) := by
  unfold maxFold
  exact maxFold_of_all_le l (0, zeroTaxon)
    (fun kv hkv => h ▸ le_maxCount l kv hkv)

theorem countP_two {α : Type} (p : α → Bool) (l : List α) :
    ∀ a b : α, a ≠ b → a ∈ l → b ∈ l → p a = true → p b = true →
      2 ≤ l.countP p := by
  induction l with
  | nil => intro a b _ ha _ _ _; cases ha
  | cons c l ih =>
      intro a b hab ha hb hpa hpb
      rw [List.countP_cons]
      rcases List.mem_cons.mp ha with hac | ha'
      · have hb' : b ∈ l := by
          rcases List.mem_cons.mp hb with hbc | hb'
          · exact absurd (hac.trans hbc.symm) hab
          · exact hb'
        have h1 : 1 ≤ l.countP p := by
          rw [Nat.succ_le, List.countP_pos]
          exact ⟨b, hb', hpb⟩
        rw [if_pos (hac ▸ hpa)]
        omega
      · rcases List.mem_cons.mp hb with hbc | hb'
        · have h1 : 1 ≤ l.countP p := by
            rw [Nat.succ_le, List.countP_pos]
            exact ⟨a, ha', hpa⟩
          rw [if_pos (hbc ▸ hpb)]
          omega
        · have := ih a b hab ha' hb' hpa hpb
          omega

/-- A bucket has at most one entry attaining its maximum count (in that
case the `maxTaxon` scan does not depend on map enumeration order). -/
def uniqMax (rd : rankData) : Prop :=
  rd.data.countP (fun kv => decide (kv.2 = maxCount rd.data)) ≤ 1

instance (rd : rankData) : Decidable (uniqMax rd) := by
  unfold uniqMax; infer_instance

theorem maxFold_perm (l l' : List (Taxon × Nat)) (hp : l.Perm l')
    (hu : l.countP (fun kv => decide (kv.2 = maxCount l)) ≤ 1) :
    maxFold l = maxFold l' := by
  rcases Nat.eq_zero_or_pos (maxCount l) with h0 | hpos
  · rw [maxFold_of_maxCount_zero l h0,
      maxFold_of_maxCount_zero l' ((maxCount_perm hp) ▸ h0)]
  · rcases maxFold_cases l with hinit | ⟨kv, hm, hEq⟩
    · exfalso
      have := maxFold_fst_eq_maxCount l
      rw [hinit] at this
      omega
    · rcases maxFold_cases l' with hinit' | ⟨kv', hm', hEq'⟩
      · exfalso
        have := maxFold_fst_eq_maxCount l'
        rw [hinit', ← maxCount_perm hp] at this
        omega
      · have hkv2 : kv.2 = maxCount l := by
          have := maxFold_fst_eq_maxCount l
          rw [hEq] at this
          exact this
        have hkv2' : kv'.2 = maxCount l := by
          have := maxFold_fst_eq_maxCount l'
          rw [hEq', ← maxCount_perm hp] at this
          exact this
        have hkk : kv = kv' := by
          by_contra hne
          have h2 := countP_two (fun kv => decide (kv.2 = maxCount l)) l kv kv'
            hne hm (hp.symm.subset hm') (decide_eq_true hkv2)
            (decide_eq_true hkv2')
          omega
        rw [hEq, hEq', hkk]

/-- Bucket pairs describing two enumeration orders of the same Go map. -/
def BucketEquiv (rd rd' : rankData) : Prop :=
  rd.rank = rd'.rank ∧ rd.total = rd'.total ∧ rd.data.Perm rd'.data

theorem maxTaxon_congr (n : Nat) (rd rd' : rankData) (hbe : BucketEquiv rd rd')
    (hu : uniqMax rd) : maxTaxon n rd = maxTaxon n rd' := by
  have h := maxFold_perm rd.data rd'.data hbe.2.2 hu
  unfold maxTaxon
  rw [h]

theorem isMaxTaxon_congr (n : Nat) (rd rd' : rankData) (p : ℚ)
    (hbe : BucketEquiv rd rd') :
    isMaxTaxon (getTaxDist n rd) p = isMaxTaxon (getTaxDist n rd') p := by
  have hdperm : (getTaxDist n rd).Perm (getTaxDist n rd') := hbe.2.2.map _
  unfold isMaxTaxon
  rw [hdperm.countP_eq]

/-- Equality of Stats up to the enumeration order of the Kingdoms list. -/
def StatsEquiv (s s' : Stats) : Prop :=
  s.NamesNum = s'.NamesNum ∧ s.Kingdoms.Perm s'.Kingdoms ∧
  s.Kingdom = s'.Kingdom ∧ s.KingdomPercentage = s'.KingdomPercentage ∧
  s.Phylum = s'.Phylum ∧ s.PhylumPercentage = s'.PhylumPercentage ∧
  s.Class = s'.Class ∧ s.ClassPercentage = s'.ClassPercentage ∧
  s.Order = s'.Order ∧ s.OrderPercentage = s'.OrderPercentage ∧
  s.Family = s'.Family ∧ s.FamilyPercentage = s'.FamilyPercentage ∧
  s.Genus = s'.Genus ∧ s.GenusPercentage = s'.GenusPercentage ∧
  s.MainTaxon = s'.MainTaxon ∧
  s.MainTaxonPercentage = s'.MainTaxonPercentage

theorem StatsEquiv_refl (s : Stats) : StatsEquiv s s :=
  ⟨rfl, List.Perm.refl _, rfl, rfl, rfl, rfl, rfl, rfl, rfl, rfl, rfl, rfl,
   rfl, rfl, rfl, rfl⟩

/-- Loop states equal up to enumeration order of the distribution lists. -/
def CalcStEquiv (a b : CalcState) : Prop :=
  StatsEquiv a.res b.res ∧ a.txnDistr.Perm b.txnDistr ∧
  a.mainTaxon = b.mainTaxon ∧ a.txnPCent = b.txnPCent ∧
  a.foundMainTaxon = b.foundMainTaxon

theorem StatsEquiv_recordAt (s s' : Stats) (r : Rank) (tx : Taxon) (p : ℚ)
    (d d' : List TaxonDist) (hs : StatsEquiv s s') (hd : d.Perm d') :
    StatsEquiv (recordAt s r tx p d) (recordAt s' r tx p d') := by
  obtain ⟨e1, e2, e3, e4, e5, e6, e7, e8, e9, e10, e11, e12, e13, e14, e15,
    e16⟩ := hs
  unfold recordAt
  split_ifs
  · exact ⟨e1, hd, rfl, rfl, e5, e6, e7, e8, e9, e10, e11, e12, e13, e14,
      e15, e16⟩
  · exact ⟨e1, e2, e3, e4, rfl, rfl, e7, e8, e9, e10, e11, e12, e13, e14,
      e15, e16⟩
  · exact ⟨e1, e2, e3, e4, e5, e6, rfl, rfl, e9, e10, e11, e12, e13, e14,
      e15, e16⟩
  · exact ⟨e1, e2, e3, e4, e5, e6, e7, e8, rfl, rfl, e11, e12, e13, e14,
      e15, e16⟩
  · exact ⟨e1, e2, e3, e4, e5, e6, e7, e8, e9, e10, rfl, rfl, e13, e14,
      e15, e16⟩
  · exact ⟨e1, e2, e3, e4, e5, e6, e7, e8, e9, e10, e11, e12, rfl, rfl,
      e15, e16⟩
  · exact ⟨e1, e2, e3, e4, e5, e6, e7, e8, e9, e10, e11, e12, e13, e14,
      e15, e16⟩

theorem calcStep_locals (n : Nat) (th : ℚ) (st : CalcState) (rd : rankData) :
    (calcStep n th st rd).txnDistr
      = (if ¬ rd.rank ≤ Unknown ∧ standardSix rd.rank then getTaxDist n rd
         else st.txnDistr) ∧
    (calcStep n th st rd).mainTaxon
      = (if ¬ rd.rank ≤ Unknown ∧ (maxTaxon n rd).2 > th ∧
            st.foundMainTaxon = false then (maxTaxon n rd).1
         else st.mainTaxon) ∧
    (calcStep n th st rd).txnPCent
      = (if ¬ rd.rank ≤ Unknown ∧ (maxTaxon n rd).2 > th ∧
            st.foundMainTaxon = false then (maxTaxon n rd).2
         else st.txnPCent) ∧
    (calcStep n th st rd).foundMainTaxon
      = (if ¬ rd.rank ≤ Unknown ∧ (maxTaxon n rd).2 > th ∧
            st.foundMainTaxon = false then true
         else st.foundMainTaxon) := by
  unfold calcStep
  by_cases h1 : rd.rank ≤ Unknown
  · simp [h1]
  · by_cases hsix : standardSix rd.rank <;>
      by_cases hfound : (maxTaxon n rd).2 > th ∧ st.foundMainTaxon = false <;>
        simp [h1, hsix, hfound]

theorem calcStep_congr (n : Nat) (th : ℚ) (st st' : CalcState)
    (rd rd' : rankData) (hst : CalcStEquiv st st') (hbe : BucketEquiv rd rd')
    (hko : keysOk rd) (hu : uniqMax rd) :
    CalcStEquiv (calcStep n th st rd) (calcStep n th st' rd') := by
  obtain ⟨hres, hdist, hmain, hpct, hfound⟩ := hst
  have hrk : rd.rank = rd'.rank := hbe.1
  have hmx : maxTaxon n rd = maxTaxon n rd' := maxTaxon_congr n rd rd' hbe hu
  have hko' : keysOk rd' := by
    intro kv hkv
    rw [← hrk]
    exact hko kv (hbe.2.2.symm.subset hkv)
  have hq : qualifies n rd ↔ qualifies n rd' := by
    unfold qualifies
    rw [hmx, isMaxTaxon_congr n rd rd' (maxTaxon n rd').2 hbe]
  refine ⟨?_, ?_, ?_, ?_, ?_⟩
  · rw [calcStep_res_eq n th st rd hko, calcStep_res_eq n th st' rd' hko']
    rw [← hrk]
    by_cases h1 : rd.rank ≤ Unknown
    · rw [if_pos h1, if_pos h1]
      exact hres
    · rw [if_neg h1, if_neg h1]
      by_cases h2 : qualifies n rd ∧ standardSix rd.rank
      · rw [if_pos h2, if_pos ⟨hq.mp h2.1, h2.2⟩, ← hmx]
        exact StatsEquiv_recordAt st.res st'.res rd.rank (maxTaxon n rd).1
          (maxTaxon n rd).2 (getTaxDist n rd) (getTaxDist n rd') hres
          (hbe.2.2.map _)
      · rw [if_neg h2, if_neg (fun hc => h2 ⟨hq.mpr hc.1, hc.2⟩)]
        exact hres
  · rw [(calcStep_locals n th st rd).1, (calcStep_locals n th st' rd').1,
      ← hrk]
    by_cases hc : ¬ rd.rank ≤ Unknown ∧ standardSix rd.rank
    · rw [if_pos hc, if_pos hc]
      exact hbe.2.2.map _
    · rw [if_neg hc, if_neg hc]
      exact hdist
  · rw [(calcStep_locals n th st rd).2.1, (calcStep_locals n th st' rd').2.1,
      ← hrk, ← hmx, ← hfound]
    by_cases hc : ¬ rd.rank ≤ Unknown ∧ (maxTaxon n rd).2 > th ∧
        st.foundMainTaxon = false
    · rw [if_pos hc, if_pos hc]
    · rw [if_neg hc, if_neg hc]
      exact hmain
  · rw [(calcStep_locals n th st rd).2.2.1,
      (calcStep_locals n th st' rd').2.2.1, ← hrk, ← hmx, ← hfound]
    by_cases hc : ¬ rd.rank ≤ Unknown ∧ (maxTaxon n rd).2 > th ∧
        st.foundMainTaxon = false
    · rw [if_pos hc, if_pos hc]
    · rw [if_neg hc, if_neg hc]
      exact hpct
  · rw [(calcStep_locals n th st rd).2.2.2,
      (calcStep_locals n th st' rd').2.2.2, ← hrk, ← hmx, ← hfound]

theorem foldl_calcStep_congr (n : Nat) (th : ℚ) :
    ∀ (l1 l2 : List rankData) (st st' : CalcState),
      List.Forall₂ BucketEquiv l1 l2 → (∀ rd ∈ l1, keysOk rd) →
      (∀ rd ∈ l1, uniqMax rd) → CalcStEquiv st st' →
      CalcStEquiv (l1.foldl (calcStep n th) st) (l2.foldl (calcStep n th) st') := by
  intro l1
  induction l1 with
  | nil =>
      intro l2 st st' hrel _ _ hst
      cases hrel
      exact hst
  | cons rd l1 ih =>
      intro l2 st st' hrel hko hu hst
      cases hrel with
      | cons hbe hrel' =>
          rw [List.foldl_cons, List.foldl_cons]
          exact ih _ (calcStep n th st rd) (calcStep n th st' _) hrel'
            (fun rd' h => hko rd' (List.mem_cons_of_mem _ h))
            (fun rd' h => hu rd' (List.mem_cons_of_mem _ h))
            (calcStep_congr n th st st' rd _ hst hbe
              (hko rd (List.mem_cons_self _ _)) (hu rd (List.mem_cons_self _ _)))

/-- C9 (amended): calcStats is invariant, up to the enumeration order of
the returned Kingdoms list, under re-enumeration of the per-rank maps
(bucket data given in a different order), provided every bucket has at most
one entry attaining its maximum count; the per-bucket keys invariant of the
aggregation is assumed. With a tie at some maximum the result can instead
depend on the enumeration order (see the counterexample), so two calls of
the Go function — whose map iteration order is unspecified — are guaranteed
to coincide only in the tie-free case. -/
theorem C9_deterministic_up_to_map_order (n : Nat) (th : ℚ)
    (ranks1 ranks2 : List rankData)
    (hrel : List.Forall₂ BucketEquiv ranks1 ranks2)
    (hko : ∀ rd ∈ ranks1, keysOk rd) (hu : ∀ rd ∈ ranks1, uniqMax rd) :
    StatsEquiv (calcStats n ranks1 th) (calcStats n ranks2 th) := by
  have hrev : List.Forall₂ BucketEquiv ranks1.reverse ranks2.reverse :=
    List.forall₂_reverse_iff.mpr hrel
  have hfin := foldl_calcStep_congr n th ranks1.reverse ranks2.reverse
    (initState n) (initState n) hrev
    (fun rd h => hko rd (List.mem_reverse.mp h))
    (fun rd h => hu rd (List.mem_reverse.mp h))
    ⟨StatsEquiv_refl _, List.Perm.refl _, rfl, rfl, rfl⟩
  obtain ⟨⟨e1, e2, e3, e4, e5, e6, e7, e8, e9, e10, e11, e12, e13, e14, _,
    _⟩, _, hm, hp, _⟩ := hfin
  exact ⟨e1, e2, e3, e4, e5, e6, e7, e8, e9, e10, e11, e12, e13, e14, hm, hp⟩

/-- C9 witness at a concrete bucket pair with a unique maximum. -/
theorem C9_deterministic_up_to_map_order_witness :
    List.Forall₂ BucketEquiv
      [⟨4, [(⟨"a", "A", "x", 4⟩, 2), (⟨"b", "B", "x", 4⟩, 1)], 3⟩]
      [⟨4, [(⟨"b", "B", "x", 4⟩, 1), (⟨"a", "A", "x", 4⟩, 2)], 3⟩] ∧
    (∀ rd ∈ [(⟨4, [(⟨"a", "A", "x", 4⟩, 2), (⟨"b", "B", "x", 4⟩, 1)], 3⟩ :
        rankData)], keysOk rd) ∧
    (∀ rd ∈ [(⟨4, [(⟨"a", "A", "x", 4⟩, 2), (⟨"b", "B", "x", 4⟩, 1)], 3⟩ :
        rankData)], uniqMax rd) ∧
    StatsEquiv
      (calcStats 3 [⟨4, [(⟨"a", "A", "x", 4⟩, 2), (⟨"b", "B", "x", 4⟩, 1)], 3⟩]
        (mkRat 1 2))
      (calcStats 3 [⟨4, [(⟨"b", "B", "x", 4⟩, 1), (⟨"a", "A", "x", 4⟩, 2)], 3⟩]
        (mkRat 1 2)) :=
  ⟨List.Forall₂.cons ⟨rfl, rfl, List.Perm.swap _ _ _⟩ List.Forall₂.nil,
   by decide, by decide,
   C9_deterministic_up_to_map_order 3 (mkRat 1 2)
     [⟨4, [(⟨"a", "A", "x", 4⟩, 2), (⟨"b", "B", "x", 4⟩, 1)], 3⟩]
     [⟨4, [(⟨"b", "B", "x", 4⟩, 1), (⟨"a", "A", "x", 4⟩, 2)], 3⟩]
     (List.Forall₂.cons ⟨rfl, rfl, List.Perm.swap _ _ _⟩ List.Forall₂.nil)
     (by decide) (by decide)⟩

/-- C9 counterexample: the genus bucket produced by `New` on two items that
both list the tied genera A and B admits two map enumeration orders; the
scan of `maxTaxon` picks A under one order and B under the other, so the
resulting Stats differ — the Go program, whose map iteration order is
unspecified, is not guaranteed to return identical Stats on two calls with
this input. -/
theorem C9_tie_order_counterexample :
    removeEmptyRanks (populateRanks (extractTaxons
        [⟨[⟨"a", "A", "x", 4⟩, ⟨"b", "B", "x", 4⟩]⟩,
         ⟨[⟨"a", "A", "x", 4⟩, ⟨"b", "B", "x", 4⟩]⟩]))
      = [⟨4, [(⟨"a", "A", "x", 4⟩, 2), (⟨"b", "B", "x", 4⟩, 2)], 4⟩] ∧
    List.Perm [((⟨"a", "A", "x", 4⟩ : Taxon), 2), (⟨"b", "B", "x", 4⟩, 2)]
      [(⟨"b", "B", "x", 4⟩, 2), (⟨"a", "A", "x", 4⟩, 2)] ∧
    (calcStats 2 [⟨4, [(⟨"a", "A", "x", 4⟩, 2), (⟨"b", "B", "x", 4⟩, 2)], 4⟩]
        (mkRat 1 2)).MainTaxon = ⟨"a", "A", "x", 4⟩ ∧
    (calcStats 2 [⟨4, [(⟨"b", "B", "x", 4⟩, 2), (⟨"a", "A", "x", 4⟩, 2)], 4⟩]
        (mkRat 1 2)).MainTaxon = ⟨"b", "B", "x", 4⟩ ∧
    calcStats 2 [⟨4, [(⟨"a", "A", "x", 4⟩, 2), (⟨"b", "B", "x", 4⟩, 2)], 4⟩]
        (mkRat 1 2)
      ≠ calcStats 2 [⟨4, [(⟨"b", "B", "x", 4⟩, 2), (⟨"a", "A", "x", 4⟩, 2)], 4⟩]
        (mkRat 1 2) :=
  ⟨by decide, List.Perm.swap _ _ _, by decide, by decide, by decide⟩

end GNStats
